import Mathlib

/-!
Verification development for the PPLAN snapshot/rollup computation engine.

The definitions below are a shallow embedding of the Python backend:

* `app/services/planning_service.py` (month normalization, month sequence,
  rate resolution, snapshot refresh, bulk matrix upsert);
* `app/services/finance_reporting_service.py` (rate resolution, cost entry
  rows, monthly rollups, finance summary, report month range, filters,
  bulk rate upsert, register creation);
* `app/repositories/planning_repository.py` (aggregation and snapshot
  pruning helpers, rate conflict query).

Modelling conventions:

* Calendar months are represented by their index `year * 12 + (month - 1)`
  as a `Nat`; stepping to the next calendar month is `+ 1`.
* A raw input date is a `PDate` (month index plus day-of-month); entities
  store already-normalized months as plain `Nat` month indexes.
* Python `Decimal` values are modelled as exact rationals `ℚ`;
  `Decimal.quantize(Decimal("0.01"))` (round half to even, the default
  `ROUND_HALF_EVEN` context) is modelled by `q2`.  The `fte_month`
  division is modelled exactly on `ℚ`; Python evaluates it at 28
  significant digits before quantizing, which agrees on all 2-decimal
  inputs of interest.
* UUID identifiers are modelled as `Nat`; the Python tie-break `str(row.id)`
  is an arbitrary total order on identifiers, modelled by the `Nat` order.
* Database state touched by the engine for a single project is collected
  in the structure `St`; SQLAlchemy transactions with rollback are
  modelled by returning the pre-call state on error.
-/

/-- Raw date input: month index (`year * 12 + month - 1`) plus day of month. -/
structure PDate where
  month : Nat
  day : Nat
deriving DecidableEq, Repr

/-- Round-half-to-even (banker) rounding of a rational to an integer,
mirroring the default `decimal` context rounding `ROUND_HALF_EVEN`. -/
def roundHalfEven (x : ℚ) : ℤ :=
  let f : ℤ := ⌊x⌋
  let r : ℚ := x - f
  if r < 1 / 2 then f
  else if 1 / 2 < r then f + 1
  else if f % 2 = 0 then f else f + 1

/-- Model of `_q2(value) = value.quantize(Decimal("0.01"))`: round to 2 decimal
places, half to even (`planning_service.py` line 38,
`finance_reporting_service.py` line 75). -/
def q2 (x : ℚ) : ℚ := (roundHalfEven (100 * x) : ℚ) / 100

/-- Model of `normalize_month_start` (`planning_service.py` lines 133-139): reject a
date whose day is not the first of its calendar month, otherwise return the
(unchanged) month. -/
def normalize_month_start (value : PDate) : Option Nat :=
  if value.day = 1 then some value.month else none

/-- Model of `month_sequence` (`planning_service.py` lines 142-152): ascending list of
every calendar month from `start_month` to `end_month` inclusive. -/
def month_sequence (start_month end_month : Nat) : List Nat :=
  if _h : start_month ≤ end_month then
    start_month :: month_sequence (start_month + 1) end_month
  else []
termination_by end_month + 1 - start_month

/-- Model of `RateUnit` enum (`models/entities.py`). -/
inductive RateUnit where
  | day
  | fte_month
deriving DecidableEq, Repr

/-- Model of `PerformerRate` entity: scope is business-unit wide when `project_id`
is `none`, project-specific otherwise. -/
structure PerformerRate where
  id : Nat
  performer_id : Nat
  project_id : Option Nat
  rate_unit : RateUnit
  rate_value : ℚ
  effective_from_month : Nat
  effective_to_month : Option Nat
deriving DecidableEq, Repr

/-- Model of `_rate_covers_month` (`planning_service.py` lines 163-169) and the
identical `_covers_month` (`finance_reporting_service.py` lines 196-202). -/
def rate_covers_month (rate : PerformerRate) (month_start : Nat) : Bool :=
  if month_start < rate.effective_from_month then false
  else
    match rate.effective_to_month with
    | some toM => !decide (toM < month_start)
    | none => true

/-- Model of `row.effective_to_month or date.max`: the sort key treats a missing end
month as larger than every real month (`date.max` exceeds every normalized
month-start). -/
def eff_to_key : Option Nat → WithTop Nat
  | none => ⊤
  | some m => (m : WithTop Nat)

/-- Sort key `(effective_from_month, effective_to_month or date.max, str(id))`
used by `_resolve_effective_rate` in both services. -/
def rate_key (r : PerformerRate) : Lex (Nat × Lex (WithTop Nat × Nat)) :=
  toLex (r.effective_from_month, toLex (eff_to_key r.effective_to_month, r.id))

/-- Key comparison spelled out: later `effective_from_month` wins, ties go to
the later `effective_to_month` (a missing end month counts as infinite), then
to the larger identifier. -/
def rate_key_le_spec (a b : PerformerRate) : Prop :=
  a.effective_from_month < b.effective_from_month ∨
    (a.effective_from_month = b.effective_from_month ∧
      (eff_to_key a.effective_to_month < eff_to_key b.effective_to_month ∨
        (eff_to_key a.effective_to_month = eff_to_key b.effective_to_month ∧
          a.id ≤ b.id)))

/-- Descending comparison used for the Python `sort(..., reverse=True)`. -/
def rate_key_ge (a b : PerformerRate) : Prop := rate_key b ≤ rate_key a

instance : DecidableRel rate_key_ge :=
  fun a b => inferInstanceAs (Decidable (rate_key b ≤ rate_key a))

instance : IsTotal PerformerRate rate_key_ge :=
  ⟨fun a b => le_total (rate_key b) (rate_key a)⟩

instance : IsTrans PerformerRate rate_key_ge :=
  ⟨fun _ _ _ h1 h2 => le_trans h2 h1⟩

/-- Python `rows.sort(key=..., reverse=True); return rows[0]` on a possibly
empty list: sort descending by `rate_key` and take the head. -/
def pick_top (l : List PerformerRate) : Option PerformerRate :=
  match List.insertionSort rate_key_ge l with
  | [] => none
  | r :: _ => some r

/-- Model of `_resolve_effective_rate` (`planning_service.py` lines 171-211 and
`finance_reporting_service.py` lines 204-244): project-specific covering
rates take priority; only when none exist are business-unit default rates
(`project_id == None`) considered; within a scope the rate with the largest
`(effective_from, effective_to or date.max, id)` key wins. -/
def resolve_effective_rate (rates_by_performer : List PerformerRate)
    (performer_id project_id month_start : Nat) : Option PerformerRate :=
  let candidates := rates_by_performer.filter
    (fun r => decide (r.performer_id = performer_id))
  let project_specific := candidates.filter
    (fun r => decide (r.project_id = some project_id) && rate_covers_month r month_start)
  match pick_top project_specific with
  | some r => some r
  | none =>
      let defaults := candidates.filter
        (fun r => decide (r.project_id = none) && rate_covers_month r month_start)
      pick_top defaults

lemma rate_key_le_spec_iff (a b : PerformerRate) :
    rate_key a ≤ rate_key b ↔ rate_key_le_spec a b := by
  unfold rate_key rate_key_le_spec
  rw [Prod.Lex.le_iff]
  constructor
  · rintro (h | ⟨h1, h2⟩)
    · exact Or.inl h
    · refine Or.inr ⟨h1, ?_⟩
      rw [Prod.Lex.le_iff] at h2
      exact h2
  · rintro (h | ⟨h1, h2⟩)
    · exact Or.inl h
    · exact Or.inr ⟨h1, (Prod.Lex.le_iff _ _).mpr h2⟩

lemma rate_key_le_refl (a : PerformerRate) : rate_key_le_spec a a :=
  (rate_key_le_spec_iff a a).mp le_rfl

lemma pick_top_eq_none {l : List PerformerRate} :
    pick_top l = none ↔ l = [] := by
  unfold pick_top
  have hperm := List.perm_insertionSort rate_key_ge l
  cases hsort : List.insertionSort rate_key_ge l with
  | nil =>
      rw [hsort] at hperm
      constructor
      · intro _; exact hperm.symm.eq_nil
      · intro _; rfl
  | cons r t =>
      rw [hsort] at hperm
      constructor
      · intro h; cases h
      · intro h
        rw [h] at hperm
        exact absurd hperm.eq_nil (by simp)

lemma pick_top_spec {l : List PerformerRate} {r : PerformerRate}
    (h : pick_top l = some r) :
    r ∈ l ∧ ∀ s ∈ l, rate_key_le_spec s r := by
  unfold pick_top at h
  have hperm := List.perm_insertionSort rate_key_ge l
  have hsorted := List.sorted_insertionSort rate_key_ge l
  cases hsort : List.insertionSort rate_key_ge l with
  | nil => rw [hsort] at h; cases h
  | cons a t =>
      rw [hsort] at h
      cases h
      rw [hsort] at hperm hsorted
      constructor
      · exact hperm.mem_iff.mp (List.mem_cons_self _ _)
      · intro s hs
        have hs2 : s ∈ r :: t := hperm.mem_iff.mpr hs
        rcases List.mem_cons.mp hs2 with heq | htail
        · subst heq; exact rate_key_le_refl s
        · have := List.rel_of_sorted_cons hsorted s htail
          exact (rate_key_le_spec_iff s r).mp this

/-- C2: rate resolution restricts to the project-specific rates of the performer
covering the month and returns the key-maximum of those when any exist;
otherwise it applies the same selection to the business-unit
default rates of the performer (`project_id = none`); it returns `none` exactly when neither
scope has a covering rate.  The key order is: latest `effective_from`, then
latest `effective_to` with a missing end month treated as infinite, then the
record identifier. -/
theorem rate_resolution_two_tier_max (rates : List PerformerRate)
    (performer_id project_id month_start : Nat) :
    let candidates := rates.filter (fun r => decide (r.performer_id = performer_id))
    let proj := candidates.filter
      (fun r => decide (r.project_id = some project_id) && rate_covers_month r month_start)
    let defaults := candidates.filter
      (fun r => decide (r.project_id = none) && rate_covers_month r month_start)
    match resolve_effective_rate rates performer_id project_id month_start with
    | some r =>
        (r ∈ proj ∧ ∀ s ∈ proj, rate_key_le_spec s r) ∨
          (proj = [] ∧ r ∈ defaults ∧ ∀ s ∈ defaults, rate_key_le_spec s r)
    | none => proj = [] ∧ defaults = [] := by
  intro candidates proj defaults
  unfold resolve_effective_rate
  cases hp : pick_top proj with
  | some r =>
      simp only [hp]
      exact Or.inl (pick_top_spec hp)
  | none =>
      have hproj : proj = [] := pick_top_eq_none.mp hp
      simp only [hp]
      cases hd : pick_top defaults with
      | some r =>
          simp only [hd]
          exact Or.inr ⟨hproj, pick_top_spec hd⟩
      | none =>
          simp only [hd]
          exact ⟨hproj, pick_top_eq_none.mp hd⟩

/-- Default of the `cost_fte_month_working_days` setting (`core/config.py`:
`Field(default=20, ge=1)`). -/
def default_working_days_per_month : Nat := 20

/-- Model of `_rate_value_per_day` (`planning_service.py` lines 213-216 and
`finance_reporting_service.py` lines 246-250): a `day` rate is its value
rounded to 2 decimals; an `fte_month` rate is divided by the configured
working-days-per-month constant and rounded to 2 decimals. -/
def rate_value_per_day (working_days : Nat) (rate : PerformerRate) : ℚ :=
  match rate.rate_unit with
  | RateUnit.day => q2 rate.rate_value
  | RateUnit.fte_month => q2 (rate.rate_value / (working_days : ℚ))

/-- Model of `EffortMonthlyEntry` entity (months already normalized). -/
structure EffortMonthlyEntry where
  task_id : Nat
  performer_id : Nat
  month_start : Nat
  planned_person_days : ℚ
  actual_person_days : ℚ
deriving DecidableEq, Repr

/-- Model of `Invoice` row restricted to the fields the engine reads. -/
structure Invoice where
  month_start : Nat
  amount : ℚ
deriving DecidableEq, Repr

/-- Model of `Revenue` row restricted to the fields the engine reads. -/
structure Revenue where
  month_start : Nat
  amount : ℚ
deriving DecidableEq, Repr

/-- Model of `Task` row restricted to the fields the engine reads (the name `Task`
itself is taken by the Lean core library). -/
structure TaskRow where
  id : Nat
  active : Bool
deriving DecidableEq, Repr

/-- Model of `Performer` row restricted to the fields the engine reads. -/
structure Performer where
  id : Nat
  active : Bool
deriving DecidableEq, Repr

/-- Model of `Project` month range (both bounds normalized month starts). -/
structure Project where
  id : Nat
  start_month : Nat
  end_month : Nat
deriving DecidableEq, Repr

/-- Model of `ProjectMonthlySnapshot` derived fields, keyed by `month_start`. -/
structure ProjectMonthlySnapshot where
  month_start : Nat
  planned_person_days : ℚ
  actual_person_days : ℚ
  planned_cost : ℚ
  actual_cost : ℚ
  revenue_amount : ℚ
  invoice_amount : ℚ
  cumulative_planned_cost : ℚ
  cumulative_actual_cost : ℚ
  cumulative_revenue : ℚ
deriving DecidableEq, Repr

/-- Database state visible to the engine for one project: its tasks,
performers of its business unit, task-performer assignments, effort
entries, the rates of the business unit, financial registers, the snapshot
table, a fresh-id counter for new rates, and the configured
working-days-per-month setting. -/
structure St where
  project : Project
  tasks : List TaskRow
  performers : List Performer
  assignments : List (Nat × Nat)
  efforts : List EffortMonthlyEntry
  rates : List PerformerRate
  invoices : List Invoice
  revenues : List Revenue
  snapshots : List ProjectMonthlySnapshot
  next_rate_id : Nat
  working_days : Nat
deriving DecidableEq, Repr

/-- Model of `list_effort_entries` (`planning_repository.py` lines 169-184): effort
entries of the project with `from_month ≤ month_start ≤ to_month`. -/
def list_effort_entries (efforts : List EffortMonthlyEntry)
    (from_month to_month : Nat) : List EffortMonthlyEntry :=
  efforts.filter
    (fun e => decide (from_month ≤ e.month_start) && decide (e.month_start ≤ to_month))

/-- Python truthiness of the optional filter sets in
`list_effort_entries_filtered`: `None` and the empty set disable the
condition. -/
def passes_filter (fset : Option (List Nat)) (x : Nat) : Bool :=
  match fset with
  | none => true
  | some [] => true
  | some l => l.contains x

/-- Model of `list_effort_entries_filtered` (`planning_repository.py` lines 186-213). -/
def list_effort_entries_filtered (efforts : List EffortMonthlyEntry)
    (from_month to_month : Nat)
    (task_ids performer_ids : Option (List Nat)) : List EffortMonthlyEntry :=
  efforts.filter
    (fun e => decide (from_month ≤ e.month_start) && decide (e.month_start ≤ to_month)
      && passes_filter task_ids e.task_id && passes_filter performer_ids e.performer_id)

/-- Model of `list_rates_for_business_unit(bu, project_id=pid)`
(`planning_repository.py` lines 277-303): rates of the business unit whose
scope is this project or the business-unit default. -/
def list_rates_for_business_unit (rates : List PerformerRate)
    (project_id : Nat) : List PerformerRate :=
  rates.filter
    (fun r => decide (r.project_id = some project_id) || decide (r.project_id = none))

/-- Model of `aggregate_invoices_by_month(...).get(month, ZERO)`
(`planning_repository.py` lines 423-432): sum of invoice amounts booked in
the month, zero when there are none. -/
def aggregate_invoices_by_month (invoices : List Invoice) (m : Nat) : ℚ :=
  ((invoices.filter (fun i => decide (i.month_start = m))).map Invoice.amount).sum

/-- Model of `aggregate_revenues_by_month(...).get(month, ZERO)`
(`planning_repository.py` lines 434-443). -/
def aggregate_revenues_by_month (revenues : List Revenue) (m : Nat) : ℚ :=
  ((revenues.filter (fun r => decide (r.month_start = m))).map Revenue.amount).sum

/-- One computed row of `_project_cost_entry_rows`
(`finance_reporting_service.py` lines 294-306). -/
structure CostEntryRow where
  task_id : Nat
  performer_id : Nat
  month_start : Nat
  planned_person_days : ℚ
  actual_person_days : ℚ
  planned_cost : ℚ
  actual_cost : ℚ
  rate_value_per_day : ℚ
  rate_unit : Option RateUnit
deriving DecidableEq, Repr

/-- Model of `_project_cost_entry_rows` (`finance_reporting_service.py` lines
259-307): resolve the rate of each effort entry, derive the per-day value (zero
when no rate covers the month) and the 2-decimal rounded costs. -/
def project_cost_entry_rows (st : St) (from_month to_month : Nat)
    (performer_filter_set task_filter_set : Option (List Nat)) : List CostEntryRow :=
  let effort_entries := list_effort_entries_filtered st.efforts from_month to_month
    task_filter_set performer_filter_set
  let rates_by_performer := list_rates_for_business_unit st.rates st.project.id
  effort_entries.map (fun entry =>
    let rate := resolve_effective_rate rates_by_performer entry.performer_id
      st.project.id entry.month_start
    let per_day : ℚ := match rate with
      | none => 0
      | some r => rate_value_per_day st.working_days r
    { task_id := entry.task_id
      performer_id := entry.performer_id
      month_start := entry.month_start
      planned_person_days := entry.planned_person_days
      actual_person_days := entry.actual_person_days
      planned_cost := q2 (entry.planned_person_days * per_day)
      actual_cost := q2 (entry.actual_person_days * per_day)
      rate_value_per_day := per_day
      rate_unit := rate.map PerformerRate.rate_unit })

/-- Per-month accumulator shared by the rollup builder and the snapshot
refresh (the dict buckets at `finance_reporting_service.py` lines 323-346
and `planning_service.py` lines 1095-1128). -/
structure EffortCostTotals where
  planned_person_days : ℚ
  actual_person_days : ℚ
  planned_cost : ℚ
  actual_cost : ℚ
deriving DecidableEq, Repr

/-- Zero-initialised bucket (`ZERO = Decimal("0.00")`). -/
def EffortCostTotals.zero : EffortCostTotals :=
  { planned_person_days := 0, actual_person_days := 0, planned_cost := 0, actual_cost := 0 }

/-- The month bucket of `_project_monthly_rollups`
(`finance_reporting_service.py` lines 332-346): accumulate the cost rows
of the month in list order. -/
def rollup_month_bucket (cost_rows : List CostEntryRow) (m : Nat) : EffortCostTotals :=
  (cost_rows.filter (fun row => decide (row.month_start = m))).foldl
    (fun acc row =>
      { planned_person_days := acc.planned_person_days + row.planned_person_days
        actual_person_days := acc.actual_person_days + row.actual_person_days
        planned_cost := acc.planned_cost + row.planned_cost
        actual_cost := acc.actual_cost + row.actual_cost })
    EffortCostTotals.zero

/-- One output row of `_project_monthly_rollups`
(`finance_reporting_service.py` lines 374-387). -/
structure RollupRow where
  month_start : Nat
  planned_person_days : ℚ
  actual_person_days : ℚ
  planned_cost : ℚ
  actual_cost : ℚ
  invoice_amount : ℚ
  revenue_amount : ℚ
  cumulative_planned_cost : ℚ
  cumulative_actual_cost : ℚ
  cumulative_revenue : ℚ
deriving DecidableEq, Repr

/-- The ascending month walk of `_project_monthly_rollups`
(`finance_reporting_service.py` lines 351-388), carrying the three running
cumulative totals. -/
def rollup_walk (bucket : Nat → EffortCostTotals) (inv rev : Nat → ℚ) :
    List Nat → ℚ → ℚ → ℚ → List RollupRow
  | [], _, _, _ => []
  | m :: rest, cp, ca, cr =>
      let b := bucket m
      let planned_pd := q2 b.planned_person_days
      let actual_pd := q2 b.actual_person_days
      let planned_cost := q2 b.planned_cost
      let actual_cost := q2 b.actual_cost
      let invoice_amount := q2 (inv m)
      let revenue_amount := q2 (rev m)
      let cp2 := q2 (cp + planned_cost)
      let ca2 := q2 (ca + actual_cost)
      let cr2 := q2 (cr + revenue_amount)
      { month_start := m
        planned_person_days := planned_pd
        actual_person_days := actual_pd
        planned_cost := planned_cost
        actual_cost := actual_cost
        invoice_amount := invoice_amount
        revenue_amount := revenue_amount
        cumulative_planned_cost := cp2
        cumulative_actual_cost := ca2
        cumulative_revenue := cr2 } :: rollup_walk bucket inv rev rest cp2 ca2 cr2

/-- Model of `_project_monthly_rollups` (`finance_reporting_service.py` lines
309-388). -/
def project_monthly_rollups (st : St) (from_month to_month : Nat) : List RollupRow :=
  let months := month_sequence from_month to_month
  let cost_rows := project_cost_entry_rows st from_month to_month none none
  rollup_walk (rollup_month_bucket cost_rows)
    (aggregate_invoices_by_month st.invoices)
    (aggregate_revenues_by_month st.revenues) months 0 0 0

/-- The month bucket built by `refresh_project_snapshots`
(`planning_service.py` lines 1095-1128): person-day sums plus, for entries
whose rate resolves, the 2-decimal rounded cost contributions. -/
def refresh_month_bucket (working_days project_id : Nat)
    (rates_by_performer : List PerformerRate)
    (entries : List EffortMonthlyEntry) (m : Nat) : EffortCostTotals :=
  (entries.filter (fun e => decide (e.month_start = m))).foldl
    (fun acc entry =>
      let acc1 := { acc with
        planned_person_days := acc.planned_person_days + entry.planned_person_days
        actual_person_days := acc.actual_person_days + entry.actual_person_days }
      match resolve_effective_rate rates_by_performer entry.performer_id
          project_id entry.month_start with
      | none => acc1
      | some rate =>
          let rate_per_day := rate_value_per_day working_days rate
          { acc1 with
            planned_cost := acc1.planned_cost + q2 (entry.planned_person_days * rate_per_day)
            actual_cost := acc1.actual_cost + q2 (entry.actual_person_days * rate_per_day) })
    EffortCostTotals.zero

/-- Model of `get_snapshot` + create-or-overwrite step of the refresh loop
(`planning_service.py` lines 1153-1180): overwrite all derived fields of an
existing row for the month, else append a new row. -/
def upsert_snapshot (table : List ProjectMonthlySnapshot)
    (row : ProjectMonthlySnapshot) : List ProjectMonthlySnapshot :=
  if table.any (fun s => decide (s.month_start = row.month_start)) then
    table.map (fun s => if s.month_start = row.month_start then row else s)
  else table ++ [row]

/-- The refresh month walk (`planning_service.py` lines 1130-1180): emit the
recomputed snapshot row for each month in ascending order while upserting it
into the snapshot table. -/
def refresh_walk (bucket : Nat → EffortCostTotals) (inv rev : Nat → ℚ) :
    List Nat → ℚ → ℚ → ℚ → List ProjectMonthlySnapshot →
      List ProjectMonthlySnapshot × List ProjectMonthlySnapshot
  | [], _, _, _, table => ([], table)
  | m :: rest, cp, ca, cr, table =>
      let b := bucket m
      let planned_total := q2 b.planned_person_days
      let actual_total := q2 b.actual_person_days
      let planned_cost := q2 b.planned_cost
      let actual_cost := q2 b.actual_cost
      let revenue_amount := q2 (rev m)
      let invoice_amount := q2 (inv m)
      let cp2 := q2 (cp + planned_cost)
      let ca2 := q2 (ca + actual_cost)
      let cr2 := q2 (cr + revenue_amount)
      let row : ProjectMonthlySnapshot :=
        { month_start := m
          planned_person_days := planned_total
          actual_person_days := actual_total
          planned_cost := planned_cost
          actual_cost := actual_cost
          revenue_amount := revenue_amount
          invoice_amount := invoice_amount
          cumulative_planned_cost := cp2
          cumulative_actual_cost := ca2
          cumulative_revenue := cr2 }
      let res := refresh_walk bucket inv rev rest cp2 ca2 cr2 (upsert_snapshot table row)
      (row :: res.1, res.2)

/-- Model of `delete_snapshots_outside_range` (`planning_repository.py` lines
601-615): drop snapshot rows whose month is before `start_month` or after
`end_month`. -/
def delete_snapshots_outside_range (table : List ProjectMonthlySnapshot)
    (start_month end_month : Nat) : List ProjectMonthlySnapshot :=
  table.filter
    (fun s => !(decide (s.month_start < start_month) || decide (end_month < s.month_start)))

/-- Model of `refresh_project_snapshots` (`planning_service.py` lines 1076-1188):
full-range recomputation over `[start_month, end_month]`, upserting one
snapshot per month, then pruning rows outside the current range.  Returns
the refreshed rows and the post-state. -/
def refresh_project_snapshots (st : St) : List ProjectMonthlySnapshot × St :=
  let months := month_sequence st.project.start_month st.project.end_month
  let effort_entries := list_effort_entries st.efforts st.project.start_month st.project.end_month
  let rates_by_performer := list_rates_for_business_unit st.rates st.project.id
  let bucket := refresh_month_bucket st.working_days st.project.id rates_by_performer effort_entries
  let res := refresh_walk bucket
    (aggregate_invoices_by_month st.invoices)
    (aggregate_revenues_by_month st.revenues) months 0 0 0 st.snapshots
  let table := delete_snapshots_outside_range res.2 st.project.start_month st.project.end_month
  (res.1, { st with snapshots := table })

lemma q2_zero : q2 0 = 0 := by
  norm_num [q2, roundHalfEven]

lemma mem_month_sequence : ∀ start_month end_month m : Nat,
    m ∈ month_sequence start_month end_month ↔ start_month ≤ m ∧ m ≤ end_month
  | s, e, m => by
    rw [month_sequence]
    by_cases h : s ≤ e
    · simp only [dif_pos h, List.mem_cons]
      constructor
      · rintro (rfl | hm)
        · exact ⟨le_refl _, h⟩
        · have := (mem_month_sequence (s + 1) e m).mp hm
          omega
      · rintro ⟨h1, h2⟩
        rcases eq_or_lt_of_le h1 with rfl | hlt
        · exact Or.inl rfl
        · exact Or.inr ((mem_month_sequence (s + 1) e m).mpr (by omega))
    · simp only [dif_neg h, List.not_mem_nil]
      constructor
      · intro hx; cases hx
      · rintro ⟨h1, h2⟩; omega
  termination_by s e _ => e + 1 - s

lemma month_sequence_pairwise_lt : ∀ start_month end_month : Nat,
    (month_sequence start_month end_month).Pairwise (· < ·)
  | s, e => by
    rw [month_sequence]
    by_cases h : s ≤ e
    · simp only [dif_pos h]
      refine List.Pairwise.cons ?_ (month_sequence_pairwise_lt (s + 1) e)
      intro b hb
      have := (mem_month_sequence (s + 1) e b).mp hb
      omega
    · simp only [dif_neg h]
      exact List.Pairwise.nil
  termination_by s e => e + 1 - s

lemma rollup_walk_map_month (bucket : Nat → EffortCostTotals) (inv rev : Nat → ℚ) :
    ∀ (ms : List Nat) (cp ca cr : ℚ),
      (rollup_walk bucket inv rev ms cp ca cr).map RollupRow.month_start = ms
  | [], _, _, _ => rfl
  | m :: rest, cp, ca, cr => by
      simp only [rollup_walk, List.map_cons]
      rw [rollup_walk_map_month]

lemma rollup_walk_head_cum (bucket : Nat → EffortCostTotals) (inv rev : Nat → ℚ)
    (ms : List Nat) (cp ca cr : ℚ) (row : RollupRow)
    (h : (rollup_walk bucket inv rev ms cp ca cr).head? = some row) :
    row.cumulative_planned_cost = q2 (cp + row.planned_cost) ∧
    row.cumulative_actual_cost = q2 (ca + row.actual_cost) ∧
    row.cumulative_revenue = q2 (cr + row.revenue_amount) := by
  cases ms with
  | nil => simp [rollup_walk] at h
  | cons m rest =>
      simp only [rollup_walk, List.head?_cons, Option.some.injEq] at h
      subst h
      exact ⟨rfl, rfl, rfl⟩

/-- Adjacent-row relation of the rollup cumulative walk: each cumulative
field equals the cumulative value of the previous row plus the rounded
monthly value, rounded again to 2 decimals. -/
def rollup_cumulative_step (a b : RollupRow) : Prop :=
  b.cumulative_planned_cost = q2 (a.cumulative_planned_cost + b.planned_cost) ∧
  b.cumulative_actual_cost = q2 (a.cumulative_actual_cost + b.actual_cost) ∧
  b.cumulative_revenue = q2 (a.cumulative_revenue + b.revenue_amount)

lemma rollup_walk_chain (bucket : Nat → EffortCostTotals) (inv rev : Nat → ℚ) :
    ∀ (ms : List Nat) (cp ca cr : ℚ),
      List.Chain' rollup_cumulative_step (rollup_walk bucket inv rev ms cp ca cr)
  | [], _, _, _ => List.chain'_nil
  | m :: rest, cp, ca, cr => by
      simp only [rollup_walk]
      refine List.chain'_cons'.mpr ⟨?_, rollup_walk_chain bucket inv rev rest _ _ _⟩
      intro b hb
      exact rollup_walk_head_cum bucket inv rev rest _ _ _ b hb

lemma rollup_walk_mem (bucket : Nat → EffortCostTotals) (inv rev : Nat → ℚ) :
    ∀ (ms : List Nat) (cp ca cr : ℚ) (row : RollupRow),
      row ∈ rollup_walk bucket inv rev ms cp ca cr →
      row.month_start ∈ ms ∧
      row.planned_person_days = q2 (bucket row.month_start).planned_person_days ∧
      row.actual_person_days = q2 (bucket row.month_start).actual_person_days ∧
      row.planned_cost = q2 (bucket row.month_start).planned_cost ∧
      row.actual_cost = q2 (bucket row.month_start).actual_cost ∧
      row.invoice_amount = q2 (inv row.month_start) ∧
      row.revenue_amount = q2 (rev row.month_start)
  | [], _, _, _, row => by intro h; cases h
  | m :: rest, cp, ca, cr, row => by
      intro h
      simp only [rollup_walk, List.mem_cons] at h
      rcases h with rfl | htail
      · exact ⟨List.mem_cons_self _ _, rfl, rfl, rfl, rfl, rfl, rfl⟩
      · have := rollup_walk_mem bucket inv rev rest _ _ _ row htail
        exact ⟨List.mem_cons_of_mem _ this.1, this.2⟩

/-- The snapshot rows emitted by the refresh walk, separated from the table
threading (the `refreshed` list of `planning_service.py` lines 1134-1180). -/
def refresh_rows (bucket : Nat → EffortCostTotals) (inv rev : Nat → ℚ) :
    List Nat → ℚ → ℚ → ℚ → List ProjectMonthlySnapshot
  | [], _, _, _ => []
  | m :: rest, cp, ca, cr =>
      let b := bucket m
      let planned_total := q2 b.planned_person_days
      let actual_total := q2 b.actual_person_days
      let planned_cost := q2 b.planned_cost
      let actual_cost := q2 b.actual_cost
      let revenue_amount := q2 (rev m)
      let invoice_amount := q2 (inv m)
      let cp2 := q2 (cp + planned_cost)
      let ca2 := q2 (ca + actual_cost)
      let cr2 := q2 (cr + revenue_amount)
      { month_start := m
        planned_person_days := planned_total
        actual_person_days := actual_total
        planned_cost := planned_cost
        actual_cost := actual_cost
        revenue_amount := revenue_amount
        invoice_amount := invoice_amount
        cumulative_planned_cost := cp2
        cumulative_actual_cost := ca2
        cumulative_revenue := cr2 } :: refresh_rows bucket inv rev rest cp2 ca2 cr2

lemma refresh_walk_eq (bucket : Nat → EffortCostTotals) (inv rev : Nat → ℚ) :
    ∀ (ms : List Nat) (cp ca cr : ℚ) (table : List ProjectMonthlySnapshot),
      refresh_walk bucket inv rev ms cp ca cr table =
        (refresh_rows bucket inv rev ms cp ca cr,
          (refresh_rows bucket inv rev ms cp ca cr).foldl upsert_snapshot table)
  | [], _, _, _, _ => rfl
  | m :: rest, cp, ca, cr, table => by
      simp only [refresh_walk, refresh_rows, List.foldl_cons]
      rw [refresh_walk_eq]

lemma refresh_rows_map_month (bucket : Nat → EffortCostTotals) (inv rev : Nat → ℚ) :
    ∀ (ms : List Nat) (cp ca cr : ℚ),
      (refresh_rows bucket inv rev ms cp ca cr).map ProjectMonthlySnapshot.month_start = ms
  | [], _, _, _ => rfl
  | m :: rest, cp, ca, cr => by
      simp only [refresh_rows, List.map_cons]
      rw [refresh_rows_map_month]

lemma refresh_rows_head_cum (bucket : Nat → EffortCostTotals) (inv rev : Nat → ℚ)
    (ms : List Nat) (cp ca cr : ℚ) (row : ProjectMonthlySnapshot)
    (h : (refresh_rows bucket inv rev ms cp ca cr).head? = some row) :
    row.cumulative_planned_cost = q2 (cp + row.planned_cost) ∧
    row.cumulative_actual_cost = q2 (ca + row.actual_cost) ∧
    row.cumulative_revenue = q2 (cr + row.revenue_amount) := by
  cases ms with
  | nil => simp [refresh_rows] at h
  | cons m rest =>
      simp only [refresh_rows, List.head?_cons, Option.some.injEq] at h
      subst h
      exact ⟨rfl, rfl, rfl⟩

/-- Adjacent-row relation of the snapshot cumulative walk, mirroring
`rollup_cumulative_step` for persisted snapshot rows. -/
def snapshot_cumulative_step (a b : ProjectMonthlySnapshot) : Prop :=
  b.cumulative_planned_cost = q2 (a.cumulative_planned_cost + b.planned_cost) ∧
  b.cumulative_actual_cost = q2 (a.cumulative_actual_cost + b.actual_cost) ∧
  b.cumulative_revenue = q2 (a.cumulative_revenue + b.revenue_amount)

lemma refresh_rows_chain (bucket : Nat → EffortCostTotals) (inv rev : Nat → ℚ) :
    ∀ (ms : List Nat) (cp ca cr : ℚ),
      List.Chain' snapshot_cumulative_step (refresh_rows bucket inv rev ms cp ca cr)
  | [], _, _, _ => List.chain'_nil
  | m :: rest, cp, ca, cr => by
      simp only [refresh_rows]
      refine List.chain'_cons'.mpr ⟨?_, refresh_rows_chain bucket inv rev rest _ _ _⟩
      intro b hb
      exact refresh_rows_head_cum bucket inv rev rest _ _ _ b hb

/-- C1: in both the monthly rollup builder and the snapshot refresh, every
cumulative field of a row equals the cumulative value of the previous row
plus the already-rounded monthly value of the row, rounded to 2 decimals after the
addition, walking months in ascending order; the first row starts the
running totals from zero. -/
theorem cumulative_fields_are_stepwise_rounded_sums (st : St)
    (from_month to_month : Nat) :
    (List.Chain' rollup_cumulative_step (project_monthly_rollups st from_month to_month) ∧
      (match (project_monthly_rollups st from_month to_month).head? with
       | some row =>
          row.cumulative_planned_cost = q2 (0 + row.planned_cost) ∧
          row.cumulative_actual_cost = q2 (0 + row.actual_cost) ∧
          row.cumulative_revenue = q2 (0 + row.revenue_amount)
       | none => True)) ∧
    (List.Chain' snapshot_cumulative_step (refresh_project_snapshots st).1 ∧
      (match (refresh_project_snapshots st).1.head? with
       | some row =>
          row.cumulative_planned_cost = q2 (0 + row.planned_cost) ∧
          row.cumulative_actual_cost = q2 (0 + row.actual_cost) ∧
          row.cumulative_revenue = q2 (0 + row.revenue_amount)
       | none => True)) := by
  have hfst : (refresh_project_snapshots st).1 =
      refresh_rows
        (refresh_month_bucket st.working_days st.project.id
          (list_rates_for_business_unit st.rates st.project.id)
          (list_effort_entries st.efforts st.project.start_month st.project.end_month))
        (aggregate_invoices_by_month st.invoices)
        (aggregate_revenues_by_month st.revenues)
        (month_sequence st.project.start_month st.project.end_month) 0 0 0 := by
    simp [refresh_project_snapshots, refresh_walk_eq]
  refine ⟨⟨rollup_walk_chain _ _ _ _ _ _ _, ?_⟩, ?_, ?_⟩
  · cases hh : (project_monthly_rollups st from_month to_month).head? with
    | none => simp
    | some row =>
        simp only []
        exact rollup_walk_head_cum _ _ _ _ _ _ _ row hh
  · rw [hfst]
    exact refresh_rows_chain _ _ _ _ _ _ _
  · rw [hfst]
    cases hh : (refresh_rows _ _ _ _ 0 0 0).head? with
    | none => simp
    | some row =>
        simp only []
        exact refresh_rows_head_cum _ _ _ _ _ _ _ row hh

lemma rollup_month_bucket_of_no_rows (cost_rows : List CostEntryRow) (m : Nat)
    (h : ∀ row ∈ cost_rows, row.month_start ≠ m) :
    rollup_month_bucket cost_rows m = EffortCostTotals.zero := by
  unfold rollup_month_bucket
  rw [List.filter_eq_nil_iff.mpr (by intro a ha; simpa using h a ha)]
  rfl

lemma project_cost_entry_rows_month (st : St) (from_month to_month : Nat)
    (pf tf : Option (List Nat)) (row : CostEntryRow)
    (h : row ∈ project_cost_entry_rows st from_month to_month pf tf) :
    ∃ e ∈ st.efforts, row.month_start = e.month_start := by
  simp only [project_cost_entry_rows, List.mem_map] at h
  obtain ⟨e, he, rfl⟩ := h
  refine ⟨e, ?_, rfl⟩
  exact (List.mem_filter.mp he).1

lemma aggregate_invoices_eq_zero (invoices : List Invoice) (m : Nat)
    (h : ∀ i ∈ invoices, i.month_start ≠ m) :
    aggregate_invoices_by_month invoices m = 0 := by
  unfold aggregate_invoices_by_month
  rw [List.filter_eq_nil_iff.mpr (by intro a ha; simpa using h a ha)]
  rfl

lemma aggregate_revenues_eq_zero (revenues : List Revenue) (m : Nat)
    (h : ∀ r ∈ revenues, r.month_start ≠ m) :
    aggregate_revenues_by_month revenues m = 0 := by
  unfold aggregate_revenues_by_month
  rw [List.filter_eq_nil_iff.mpr (by intro a ha; simpa using h a ha)]
  rfl

/-- C4: the rollup builder returns exactly one row per calendar month of the
inclusive range, in ascending order with no missing interior months; a month
of the range with no effort entries, invoices, or revenues still gets a row,
with all monthly values zero. -/
theorem rollup_one_row_per_calendar_month (st : St) (from_month to_month : Nat)
    (_hrange : from_month ≤ to_month) :
    (project_monthly_rollups st from_month to_month).map RollupRow.month_start
        = month_sequence from_month to_month ∧
    (∀ m, m ∈ month_sequence from_month to_month ↔ from_month ≤ m ∧ m ≤ to_month) ∧
    (month_sequence from_month to_month).Pairwise (· < ·) ∧
    (∀ row ∈ project_monthly_rollups st from_month to_month,
      (∀ e ∈ st.efforts, e.month_start ≠ row.month_start) →
      (∀ i ∈ st.invoices, i.month_start ≠ row.month_start) →
      (∀ r ∈ st.revenues, r.month_start ≠ row.month_start) →
      row.planned_person_days = 0 ∧ row.actual_person_days = 0 ∧
        row.planned_cost = 0 ∧ row.actual_cost = 0 ∧
        row.invoice_amount = 0 ∧ row.revenue_amount = 0) := by
  refine ⟨?_, fun m => mem_month_sequence _ _ m, month_sequence_pairwise_lt _ _, ?_⟩
  · simp only [project_monthly_rollups]
    exact rollup_walk_map_month _ _ _ _ _ _ _
  · intro row hrow heff hinv hrev
    simp only [project_monthly_rollups] at hrow
    have hm := rollup_walk_mem _ _ _ _ _ _ _ row hrow
    have hbucket : rollup_month_bucket
        (project_cost_entry_rows st from_month to_month none none) row.month_start
          = EffortCostTotals.zero := by
      apply rollup_month_bucket_of_no_rows
      intro r hr
      obtain ⟨e, he, heq⟩ := project_cost_entry_rows_month st from_month to_month
        none none r hr
      rw [heq]
      exact heff e he
    have hia := aggregate_invoices_eq_zero st.invoices row.month_start hinv
    have hra := aggregate_revenues_eq_zero st.revenues row.month_start hrev
    obtain ⟨_, h1, h2, h3, h4, h5, h6⟩ := hm
    rw [hbucket] at h1 h2 h3 h4
    rw [hia] at h5
    rw [hra] at h6
    refine ⟨?_, ?_, ?_, ?_, ?_, ?_⟩ <;>
      simp [h1, h2, h3, h4, h5, h6, EffortCostTotals.zero, q2_zero]

/-- C3: the per-day value of a resolved rate is its value rounded to 2
decimals for a `day` rate and its value divided by the configured
working-days-per-month constant (default 20) rounded to 2 decimals for an
`fte_month` rate; the planned and actual cost of each cost entry row is
`q2(person_days * per_day_value)`; an entry whose rate resolves to `none`
carries a zero per-day value and contributes zero cost. -/
theorem cost_entry_rows_rounded_per_day (st : St) (from_month to_month : Nat)
    (performer_filter_set task_filter_set : Option (List Nat)) :
    default_working_days_per_month = 20 ∧
    ∀ row ∈ project_cost_entry_rows st from_month to_month
        performer_filter_set task_filter_set,
      row.planned_cost = q2 (row.planned_person_days * row.rate_value_per_day) ∧
      row.actual_cost = q2 (row.actual_person_days * row.rate_value_per_day) ∧
      (match resolve_effective_rate (list_rates_for_business_unit st.rates st.project.id)
          row.performer_id st.project.id row.month_start with
       | none => row.rate_value_per_day = 0 ∧ row.planned_cost = 0 ∧ row.actual_cost = 0
       | some r => row.rate_value_per_day =
          (match r.rate_unit with
           | RateUnit.day => q2 r.rate_value
           | RateUnit.fte_month => q2 (r.rate_value / (st.working_days : ℚ)))) := by
  refine ⟨rfl, ?_⟩
  intro row hrow
  simp only [project_cost_entry_rows, List.mem_map] at hrow
  obtain ⟨entry, _he, rfl⟩ := hrow
  refine ⟨rfl, rfl, ?_⟩
  cases hres : resolve_effective_rate (list_rates_for_business_unit st.rates st.project.id)
      entry.performer_id st.project.id entry.month_start with
  | none => simp [hres, q2_zero]
  | some r => simp [hres, rate_value_per_day]

lemma mem_upsert_snapshot {t : List ProjectMonthlySnapshot}
    {r s : ProjectMonthlySnapshot} (h : s ∈ upsert_snapshot t r) :
    s = r ∨ (s ∈ t ∧ s.month_start ≠ r.month_start) := by
  unfold upsert_snapshot at h
  by_cases hc : t.any (fun x => decide (x.month_start = r.month_start))
  · rw [if_pos hc] at h
    obtain ⟨x, hx, hxe⟩ := List.mem_map.mp h
    by_cases hm : x.month_start = r.month_start
    · rw [if_pos hm] at hxe
      exact Or.inl hxe.symm
    · rw [if_neg hm] at hxe
      subst hxe
      exact Or.inr ⟨hx, hm⟩
  · rw [if_neg hc] at h
    rcases List.mem_append.mp h with h1 | h2
    · refine Or.inr ⟨h1, ?_⟩
      intro hbad
      exact hc (List.any_eq_true.mpr ⟨s, h1, by simpa using hbad⟩)
    · exact Or.inl (by simpa using h2)

lemma upsert_snapshot_presence (t : List ProjectMonthlySnapshot)
    (r : ProjectMonthlySnapshot) :
    ∃ s ∈ upsert_snapshot t r, s.month_start = r.month_start := by
  unfold upsert_snapshot
  by_cases hc : t.any (fun x => decide (x.month_start = r.month_start))
  · rw [if_pos hc]
    obtain ⟨x, hx, hxm⟩ := List.any_eq_true.mp hc
    refine ⟨r, List.mem_map.mpr ⟨x, hx, ?_⟩, rfl⟩
    rw [if_pos (by simpa using hxm)]
  · rw [if_neg hc]
    exact ⟨r, List.mem_append.mpr (Or.inr (List.mem_singleton.mpr rfl)), rfl⟩

lemma upsert_snapshot_preserves_presence (t : List ProjectMonthlySnapshot)
    (r : ProjectMonthlySnapshot) (μ : Nat) (h : ∃ s ∈ t, s.month_start = μ) :
    ∃ s ∈ upsert_snapshot t r, s.month_start = μ := by
  by_cases hμ : μ = r.month_start
  · subst hμ
    exact upsert_snapshot_presence t r
  · obtain ⟨s, hs, hsm⟩ := h
    unfold upsert_snapshot
    by_cases hc : t.any (fun x => decide (x.month_start = r.month_start))
    · rw [if_pos hc]
      refine ⟨s, List.mem_map.mpr ⟨s, hs, ?_⟩, hsm⟩
      rw [if_neg (by rw [hsm]; exact hμ)]
    · rw [if_neg hc]
      exact ⟨s, List.mem_append.mpr (Or.inl hs), hsm⟩

lemma upsert_snapshot_nodup_months {t : List ProjectMonthlySnapshot}
    (r : ProjectMonthlySnapshot)
    (h : (t.map ProjectMonthlySnapshot.month_start).Nodup) :
    ((upsert_snapshot t r).map ProjectMonthlySnapshot.month_start).Nodup := by
  unfold upsert_snapshot
  by_cases hc : t.any (fun x => decide (x.month_start = r.month_start))
  · rw [if_pos hc]
    have : (t.map (fun s => if s.month_start = r.month_start then r else s)).map
        ProjectMonthlySnapshot.month_start = t.map ProjectMonthlySnapshot.month_start := by
      rw [List.map_map]
      apply List.map_congr_left
      intro x _
      by_cases hm : x.month_start = r.month_start
      · simp [Function.comp, hm]
      · simp [Function.comp, hm]
    rw [this]
    exact h
  · rw [if_neg hc]
    rw [List.map_append]
    refine List.Nodup.append h (by simp) ?_
    intro a ha hb
    obtain ⟨x, hx, rfl⟩ := List.mem_map.mp ha
    have hb2 : x.month_start = r.month_start := by simpa using hb
    exact absurd (List.any_eq_true.mpr ⟨x, hx, by simpa using hb2⟩) hc

lemma mem_foldl_upsert :
    ∀ (rows t : List ProjectMonthlySnapshot) (s : ProjectMonthlySnapshot),
      s ∈ rows.foldl upsert_snapshot t →
      s ∈ rows ∨ (s ∈ t ∧
        s.month_start ∉ rows.map ProjectMonthlySnapshot.month_start)
  | [], _, s => fun h => Or.inr ⟨h, by simp⟩
  | r :: rest, t, s => fun h => by
      rcases mem_foldl_upsert rest (upsert_snapshot t r) s h with h1 | ⟨h2, h3⟩
      · exact Or.inl (List.mem_cons_of_mem _ h1)
      · rcases mem_upsert_snapshot h2 with rfl | ⟨h4, h5⟩
        · exact Or.inl (List.mem_cons_self _ _)
        · refine Or.inr ⟨h4, ?_⟩
          simp only [List.map_cons, List.mem_cons]
          rintro (hx | hx)
          · exact h5 hx
          · exact h3 hx

lemma foldl_upsert_preserves_presence :
    ∀ (rows t : List ProjectMonthlySnapshot) (μ : Nat),
      (∃ s ∈ t, s.month_start = μ) →
      ∃ s ∈ rows.foldl upsert_snapshot t, s.month_start = μ
  | [], _, _ => fun h => h
  | r :: rest, t, μ => fun h =>
      foldl_upsert_preserves_presence rest (upsert_snapshot t r) μ
        (upsert_snapshot_preserves_presence t r μ h)

lemma foldl_upsert_presence :
    ∀ (rows t : List ProjectMonthlySnapshot) (r : ProjectMonthlySnapshot),
      r ∈ rows → ∃ s ∈ rows.foldl upsert_snapshot t, s.month_start = r.month_start
  | [], _, r => fun h => absurd h (List.not_mem_nil r)
  | r0 :: rest, t, r => fun h => by
      rcases List.mem_cons.mp h with rfl | htail
      · exact foldl_upsert_preserves_presence rest (upsert_snapshot t r) r.month_start
          (upsert_snapshot_presence t r)
      · exact foldl_upsert_presence rest (upsert_snapshot t r0) r htail

lemma foldl_upsert_nodup_months :
    ∀ (rows t : List ProjectMonthlySnapshot),
      (t.map ProjectMonthlySnapshot.month_start).Nodup →
      ((rows.foldl upsert_snapshot t).map ProjectMonthlySnapshot.month_start).Nodup
  | [], _ => fun h => h
  | r :: rest, t => fun h =>
      foldl_upsert_nodup_months rest (upsert_snapshot t r)
        (upsert_snapshot_nodup_months r h)

lemma upsert_snapshot_eq_self (t : List ProjectMonthlySnapshot)
    (r : ProjectMonthlySnapshot) (hA : ∃ s ∈ t, s.month_start = r.month_start)
    (hB : ∀ s ∈ t, s.month_start = r.month_start → s = r) :
    upsert_snapshot t r = t := by
  unfold upsert_snapshot
  obtain ⟨w, hw, hwm⟩ := hA
  rw [if_pos (List.any_eq_true.mpr ⟨w, hw, by simpa using hwm⟩)]
  have : ∀ s ∈ t, (if s.month_start = r.month_start then r else s) = s := by
    intro s hs
    by_cases hm : s.month_start = r.month_start
    · rw [if_pos hm]
      exact (hB s hs hm).symm
    · rw [if_neg hm]
  calc t.map (fun s => if s.month_start = r.month_start then r else s)
      = t.map id := List.map_congr_left this
    _ = t := List.map_id t

lemma foldl_upsert_eq_self :
    ∀ (rows t : List ProjectMonthlySnapshot),
      (∀ r ∈ rows, (∃ s ∈ t, s.month_start = r.month_start) ∧
        ∀ s ∈ t, s.month_start = r.month_start → s = r) →
      rows.foldl upsert_snapshot t = t
  | [], _ => fun _ => rfl
  | r :: rest, t => fun h => by
      have h0 := h r (List.mem_cons_self _ _)
      have he : upsert_snapshot t r = t := upsert_snapshot_eq_self t r h0.1 h0.2
      simp only [List.foldl_cons, he]
      exact foldl_upsert_eq_self rest t
        (fun x hx => h x (List.mem_cons_of_mem _ hx))

lemma refresh_table_mem_rows
    (rows table : List ProjectMonthlySnapshot) (s e : Nat)
    (hmap : rows.map ProjectMonthlySnapshot.month_start = month_sequence s e)
    (w : ProjectMonthlySnapshot)
    (hw : w ∈ delete_snapshots_outside_range (rows.foldl upsert_snapshot table) s e) :
    w ∈ rows := by
  unfold delete_snapshots_outside_range at hw
  have hw2 := List.mem_filter.mp hw
  have hbound : s ≤ w.month_start ∧ w.month_start ≤ e := by
    have := hw2.2
    simp only [Bool.not_eq_true', Bool.or_eq_false_iff, decide_eq_false_iff_not] at this
    omega
  rcases mem_foldl_upsert rows table w hw2.1 with h1 | ⟨_, h3⟩
  · exact h1
  · exact absurd (by rw [hmap]; exact (mem_month_sequence s e _).mpr hbound) h3

lemma refresh_table_months_spec
    (rows table : List ProjectMonthlySnapshot) (s e : Nat)
    (hmap : rows.map ProjectMonthlySnapshot.month_start = month_sequence s e)
    (hnodup : (table.map ProjectMonthlySnapshot.month_start).Nodup) :
    ((delete_snapshots_outside_range (rows.foldl upsert_snapshot table) s e).map
        ProjectMonthlySnapshot.month_start).Nodup ∧
    ∀ m, m ∈ (delete_snapshots_outside_range (rows.foldl upsert_snapshot table) s e).map
        ProjectMonthlySnapshot.month_start ↔ (s ≤ m ∧ m ≤ e) := by
  constructor
  · have h1 := foldl_upsert_nodup_months rows table hnodup
    unfold delete_snapshots_outside_range
    exact List.Nodup.sublist (List.Sublist.map _ (List.filter_sublist _)) h1
  · intro m
    constructor
    · intro hm
      obtain ⟨x, hx, rfl⟩ := List.mem_map.mp hm
      have hx2 := List.mem_filter.mp hx
      have := hx2.2
      simp only [Bool.not_eq_true', Bool.or_eq_false_iff, decide_eq_false_iff_not] at this
      omega
    · rintro ⟨h1, h2⟩
      have hm_ms : m ∈ rows.map ProjectMonthlySnapshot.month_start := by
        rw [hmap]
        exact (mem_month_sequence s e m).mpr ⟨h1, h2⟩
      obtain ⟨r, hr, hrm⟩ := List.mem_map.mp hm_ms
      obtain ⟨w, hw, hwm⟩ := foldl_upsert_presence rows table r hr
      refine List.mem_map.mpr ⟨w, List.mem_filter.mpr ⟨hw, ?_⟩, by rw [hwm, hrm]⟩
      simp only [Bool.not_eq_true', Bool.or_eq_false_iff, decide_eq_false_iff_not]
      omega

lemma refresh_table_absorb
    (rows table : List ProjectMonthlySnapshot) (s e : Nat)
    (hmap : rows.map ProjectMonthlySnapshot.month_start = month_sequence s e) :
    delete_snapshots_outside_range
      (rows.foldl upsert_snapshot
        (delete_snapshots_outside_range (rows.foldl upsert_snapshot table) s e)) s e
      = delete_snapshots_outside_range (rows.foldl upsert_snapshot table) s e := by
  have hnd : (rows.map ProjectMonthlySnapshot.month_start).Nodup := by
    rw [hmap]
    exact (month_sequence_pairwise_lt s e).nodup
  have habs : rows.foldl upsert_snapshot
      (delete_snapshots_outside_range (rows.foldl upsert_snapshot table) s e)
      = delete_snapshots_outside_range (rows.foldl upsert_snapshot table) s e := by
    apply foldl_upsert_eq_self
    intro r hr
    have hrm : r.month_start ∈ month_sequence s e := by
      rw [← hmap]
      exact List.mem_map_of_mem _ hr
    have hbounds := (mem_month_sequence s e r.month_start).mp hrm
    constructor
    · obtain ⟨w, hw, hwm⟩ := foldl_upsert_presence rows table r hr
      refine ⟨w, ?_, hwm⟩
      unfold delete_snapshots_outside_range
      refine List.mem_filter.mpr ⟨hw, ?_⟩
      simp only [Bool.not_eq_true', Bool.or_eq_false_iff, decide_eq_false_iff_not]
      omega
    · intro w hw hwm
      have hwrows : w ∈ rows := refresh_table_mem_rows rows table s e hmap w hw
      exact List.inj_on_of_nodup_map hnd hwrows hr hwm
  rw [habs]
  unfold delete_snapshots_outside_range
  apply List.filter_eq_self.mpr
  intro w hw
  exact (List.mem_filter.mp hw).2

/-- C5: snapshot refresh is idempotent: with no intervening changes to
effort entries, rates, invoices, revenues, or the project range, a second
refresh returns the same refreshed rows and leaves the persisted snapshot
table (and the rest of the state) exactly as the first refresh left it. -/
theorem snapshot_refresh_idempotent (st : St) :
    refresh_project_snapshots ((refresh_project_snapshots st).2)
      = refresh_project_snapshots st := by
  have key := refresh_table_absorb
    (refresh_rows (refresh_month_bucket st.working_days st.project.id
        (list_rates_for_business_unit st.rates st.project.id)
        (list_effort_entries st.efforts st.project.start_month st.project.end_month))
      (aggregate_invoices_by_month st.invoices)
      (aggregate_revenues_by_month st.revenues)
      (month_sequence st.project.start_month st.project.end_month) 0 0 0)
    st.snapshots st.project.start_month st.project.end_month
    (refresh_rows_map_month _ _ _ _ _ _ _)
  simp only [refresh_project_snapshots, refresh_walk_eq]
  rw [key]

/-- C6: after a refresh the snapshot table of the project holds exactly one row
per calendar month of `[start_month, end_month]` and no row outside that
range: snapshot months are pairwise distinct and a month has a row exactly
when it lies in the project range (rows stranded outside the range are
deleted by the refresh). -/
theorem refresh_snapshot_table_exact_range (st : St)
    (hnodup : (st.snapshots.map ProjectMonthlySnapshot.month_start).Nodup) :
    ((refresh_project_snapshots st).2.snapshots.map
        ProjectMonthlySnapshot.month_start).Nodup ∧
    ∀ m, m ∈ (refresh_project_snapshots st).2.snapshots.map
        ProjectMonthlySnapshot.month_start ↔
      (st.project.start_month ≤ m ∧ m ≤ st.project.end_month) := by
  have key := refresh_table_months_spec
    (refresh_rows (refresh_month_bucket st.working_days st.project.id
        (list_rates_for_business_unit st.rates st.project.id)
        (list_effort_entries st.efforts st.project.start_month st.project.end_month))
      (aggregate_invoices_by_month st.invoices)
      (aggregate_revenues_by_month st.revenues)
      (month_sequence st.project.start_month st.project.end_month) 0 0 0)
    st.snapshots st.project.start_month st.project.end_month
    (refresh_rows_map_month _ _ _ _ _ _ _) hnodup
  simpa only [refresh_project_snapshots, refresh_walk_eq] using key

/-- Error kinds; each constructor models one `HTTPException` detail message
raised by the services.  Only the two `_resolve_filters` messages embed the
offending identifiers; every other message is a fixed string. -/
inductive Err where
  | month_not_first_day
  | negative_person_days
  | matrix_month_outside_range
  | task_not_in_project
  | inactive_task
  | performer_not_in_unit
  | inactive_performer
  | pair_not_assigned
  | duplicate_matrix_key
  | rate_to_before_from
  | negative_amount
  | rate_project_mismatch
  | duplicate_rate_key
  | rate_overlap
  | summary_range_outside_project
  | summary_to_before_from
  | report_range_outside_project
  | report_to_before_from
  | matrix_range_outside_project
  | matrix_to_before_from
  | register_month_outside_range
  | project_end_before_start
  | stage_end_before_start
  | stage_outside_project
  | unknown_task_ids (ids : List Nat)
  | unknown_performer_ids (ids : List Nat)
deriving DecidableEq, Repr

/-- Identifiers carried by an error message: only the `_resolve_filters`
unknown-reference messages name identifiers at all. -/
def Err.offender_ids : Err → List Nat
  | Err.unknown_task_ids ids => ids
  | Err.unknown_performer_ids ids => ids
  | _ => []

/-- Model of `MatrixEntryInput` payload (`planning_service.py` lines 118-124), with
the raw un-normalized month. -/
structure MatrixEntryInput where
  task_id : Nat
  performer_id : Nat
  month_start : PDate
  planned_person_days : ℚ
  actual_person_days : ℚ
deriving DecidableEq, Repr

/-- A matrix entry after the validation pass normalized its month. -/
structure NormalizedMatrixEntry where
  task_id : Nat
  performer_id : Nat
  month_start : Nat
  planned_person_days : ℚ
  actual_person_days : ℚ
deriving DecidableEq, Repr

/-- Model of `list_performers_for_project` (`planning_repository.py` lines 105-123):
business-unit performers that hold at least one assignment on the tasks
of the project. -/
def list_performers_for_project (st : St) : List Performer :=
  st.performers.filter (fun p => st.assignments.any (fun a => decide (a.2 = p.id)))

/-- Validation pass of `bulk_upsert_matrix_entries` (`planning_service.py`
lines 971-1034), checking each payload in order: month normalization,
non-negative person-days, month within the project range, known active
task, known active performer, existing assignment, and no duplicate
`(task, performer, month)` key within the batch. -/
def validate_matrix_entries (st : St) :
    List MatrixEntryInput → List (Nat × Nat × Nat) →
      Except Err (List NormalizedMatrixEntry)
  | [], _ => .ok []
  | payload :: rest, seen =>
      match normalize_month_start payload.month_start with
      | none => .error Err.month_not_first_day
      | some month =>
        if payload.planned_person_days < 0 ∨ payload.actual_person_days < 0 then
          .error Err.negative_person_days
        else if month < st.project.start_month ∨ st.project.end_month < month then
          .error Err.matrix_month_outside_range
        else
          match st.tasks.find? (fun t => decide (t.id = payload.task_id)) with
          | none => .error Err.task_not_in_project
          | some task =>
            if !task.active then .error Err.inactive_task
            else
              match (list_performers_for_project st).find?
                  (fun p => decide (p.id = payload.performer_id)) with
              | none => .error Err.performer_not_in_unit
              | some performer =>
                if !performer.active then .error Err.inactive_performer
                else if (task.id, performer.id) ∉ st.assignments then
                  .error Err.pair_not_assigned
                else if (task.id, performer.id, month) ∈ seen then
                  .error Err.duplicate_matrix_key
                else
                  match validate_matrix_entries st rest
                      ((task.id, performer.id, month) :: seen) with
                  | .error e => .error e
                  | .ok ns => .ok
                      ({ task_id := task.id
                         performer_id := performer.id
                         month_start := month
                         planned_person_days := payload.planned_person_days
                         actual_person_days := payload.actual_person_days } :: ns)

/-- Model of `get_effort_entry` + create-or-update step of the apply loop
(`planning_service.py` lines 1038-1058). -/
def upsert_effort_entry (efforts : List EffortMonthlyEntry)
    (n : NormalizedMatrixEntry) : List EffortMonthlyEntry :=
  if efforts.any (fun e => decide (e.task_id = n.task_id)
      && decide (e.performer_id = n.performer_id)
      && decide (e.month_start = n.month_start)) then
    efforts.map (fun e =>
      if decide (e.task_id = n.task_id) && decide (e.performer_id = n.performer_id)
          && decide (e.month_start = n.month_start) then
        { e with planned_person_days := n.planned_person_days
                 actual_person_days := n.actual_person_days }
      else e)
  else
    efforts ++ [{ task_id := n.task_id
                  performer_id := n.performer_id
                  month_start := n.month_start
                  planned_person_days := n.planned_person_days
                  actual_person_days := n.actual_person_days }]

/-- Model of `bulk_upsert_matrix_entries` (`planning_service.py` lines 952-1073):
validate the whole batch first (no side effects), then persist every entry
and run exactly one snapshot refresh inside the nested transaction; a
raised validation error rolls the transaction back, leaving the pre-call
state. -/
def bulk_upsert_matrix_entries (st : St) (entries : List MatrixEntryInput) :
    Except Err (Nat × List ProjectMonthlySnapshot) × St :=
  match validate_matrix_entries st entries [] with
  | .error e => (.error e, st)
  | .ok normalized =>
      let st1 := { st with efforts := normalized.foldl upsert_effort_entry st.efforts }
      let res := refresh_project_snapshots st1
      (.ok (normalized.length, res.1), res.2)

/-- Model of `RateEntryInput` payload (`finance_reporting_service.py` lines 28-35),
with the raw un-normalized months. -/
structure RateEntryInput where
  performer_id : Nat
  project_id : Option Nat
  rate_unit : RateUnit
  rate_value : ℚ
  effective_from_month : PDate
  effective_to_month : Option PDate
deriving DecidableEq, Repr

/-- A rate entry after the validation pass normalized its months. -/
structure NormalizedRateEntry where
  performer_id : Nat
  project_id : Option Nat
  rate_unit : RateUnit
  rate_value : ℚ
  effective_from_month : Nat
  effective_to_month : Option Nat
deriving DecidableEq, Repr

/-- The conditional normalization of `effective_to_month`
(`finance_reporting_service.py` lines 463-465). -/
def normalize_optional_month : Option PDate → Except Err (Option Nat)
  | none => .ok none
  | some d =>
      match normalize_month_start d with
      | none => .error Err.month_not_first_day
      | some m => .ok (some m)

/-- Validation pass of `bulk_upsert_rates` (`finance_reporting_service.py`
lines 459-503): month normalization, ordered effective range, non-negative
value, performer in the business unit, `project_id` null or the current
project, and no duplicate `(performer, project, effective_from)` key within
the batch. -/
def validate_rate_entries (st : St) :
    List RateEntryInput → List (Nat × Option Nat × Nat) →
      Except Err (List NormalizedRateEntry)
  | [], _ => .ok []
  | entry :: rest, seen =>
      match normalize_month_start entry.effective_from_month with
      | none => .error Err.month_not_first_day
      | some from_m =>
        match normalize_optional_month entry.effective_to_month with
        | .error e => .error e
        | .ok to_m =>
          if (match to_m with | some t => decide (t < from_m) | none => false) then
            .error Err.rate_to_before_from
          else if entry.rate_value < 0 then .error Err.negative_amount
          else
            match st.performers.find? (fun p => decide (p.id = entry.performer_id)) with
            | none => .error Err.performer_not_in_unit
            | some performer =>
              if (match entry.project_id with
                  | some p => decide (p ≠ st.project.id)
                  | none => false) then
                .error Err.rate_project_mismatch
              else if (performer.id, entry.project_id, from_m) ∈ seen then
                .error Err.duplicate_rate_key
              else
                match validate_rate_entries st rest
                    ((performer.id, entry.project_id, from_m) :: seen) with
                | .error e => .error e
                | .ok ns => .ok
                    ({ performer_id := performer.id
                       project_id := entry.project_id
                       rate_unit := entry.rate_unit
                       rate_value := entry.rate_value
                       effective_from_month := from_m
                       effective_to_month := to_m } :: ns)

/-- Model of `list_conflicting_rates` (`planning_repository.py` lines 327-348): rates
of the same performer and scope whose effective range intersects the given
range (`None` end months behave as `date.max`), excluding the rate being
written. -/
def list_conflicting_rates (rates : List PerformerRate) (performer_id : Nat)
    (project_id : Option Nat) (effective_from_month : Nat)
    (effective_to_month : Option Nat) (exclude_rate_id : Option Nat) :
    List PerformerRate :=
  rates.filter (fun r =>
    decide (r.performer_id = performer_id) && decide (r.project_id = project_id)
    && (match effective_to_month with
        | none => true
        | some t => decide (r.effective_from_month ≤ t))
    && (match r.effective_to_month with
        | none => true
        | some rt => decide (effective_from_month ≤ rt))
    && (match exclude_rate_id with
        | none => true
        | some x => decide (r.id ≠ x)))

/-- Apply loop of `bulk_upsert_rates` (`finance_reporting_service.py` lines
505-551), run inside the nested transaction: upsert each rate by its
`(performer, project, effective_from)` key, then reject if the written
range now overlaps another rate in the same scope. -/
def apply_rate_entries : St → List NormalizedRateEntry → Except Err St
  | st, [] => .ok st
  | st, e :: rest =>
      match st.rates.find? (fun r => decide (r.performer_id = e.performer_id)
          && decide (r.project_id = e.project_id)
          && decide (r.effective_from_month = e.effective_from_month)) with
      | none =>
          let row : PerformerRate :=
            { id := st.next_rate_id
              performer_id := e.performer_id
              project_id := e.project_id
              rate_unit := e.rate_unit
              rate_value := e.rate_value
              effective_from_month := e.effective_from_month
              effective_to_month := e.effective_to_month }
          let st1 := { st with rates := st.rates ++ [row],
                               next_rate_id := st.next_rate_id + 1 }
          if list_conflicting_rates st1.rates e.performer_id e.project_id
              e.effective_from_month e.effective_to_month (some row.id) ≠ [] then
            .error Err.rate_overlap
          else apply_rate_entries st1 rest
      | some existing =>
          let updated := { existing with
            rate_unit := e.rate_unit
            rate_value := e.rate_value
            effective_to_month := e.effective_to_month }
          let st1 := { st with
            rates := st.rates.map (fun r => if r.id = existing.id then updated else r) }
          if list_conflicting_rates st1.rates e.performer_id e.project_id
              e.effective_from_month e.effective_to_month (some existing.id) ≠ [] then
            .error Err.rate_overlap
          else apply_rate_entries st1 rest

/-- Model of `bulk_upsert_rates` (`finance_reporting_service.py` lines 445-563):
validate the whole batch, then apply it and run exactly one snapshot
refresh inside the nested transaction; any raised error (validation or
overlap) rolls the transaction back, leaving the pre-call state. -/
def bulk_upsert_rates (st : St) (entries : List RateEntryInput) :
    Except Err Unit × St :=
  match validate_rate_entries st entries [] with
  | .error e => (.error e, st)
  | .ok normalized =>
      match apply_rate_entries st normalized with
      | .error e => (.error e, st)
      | .ok st1 =>
          let res := refresh_project_snapshots st1
          (.ok (), res.2)

lemma validate_matrix_ok_sound :
    ∀ (st : St) (entries : List MatrixEntryInput) (seen : List (Nat × Nat × Nat))
      (ns : List NormalizedMatrixEntry),
      validate_matrix_entries st entries seen = .ok ns →
      ∀ x ∈ entries,
        (0 ≤ x.planned_person_days ∧ 0 ≤ x.actual_person_days) ∧
        x.month_start.day = 1 ∧
        (∃ t ∈ st.tasks, t.id = x.task_id) ∧
        ∃ q ∈ list_performers_for_project st, q.id = x.performer_id
  | _, [], _, _ => by intro _ x hx; cases hx
  | st, p :: rest, seen, ns => by
      intro h x hx
      unfold validate_matrix_entries at h
      split at h
      · exact Except.noConfusion h
      next month heq =>
        split at h
        · exact Except.noConfusion h
        next hneg =>
          split at h
          · exact Except.noConfusion h
          next hrange =>
            split at h
            · exact Except.noConfusion h
            next task heq2 =>
              split at h
              · exact Except.noConfusion h
              next hact =>
                split at h
                · exact Except.noConfusion h
                next performer heq3 =>
                  split at h
                  · exact Except.noConfusion h
                  next hpact =>
                    split at h
                    · exact Except.noConfusion h
                    next hassign =>
                      split at h
                      · exact Except.noConfusion h
                      next hdup =>
                        split at h
                        next e heq4 => exact Except.noConfusion h
                        next ns2 heq4 =>
                          rcases List.mem_cons.mp hx with rfl | hx2
                          · have hno := not_or.mp hneg
                            have hday : x.month_start.day = 1 := by
                              by_cases hd : x.month_start.day = 1
                              · exact hd
                              · simp [normalize_month_start, hd] at heq
                            have hp := List.find?_some heq2
                            have hq := List.find?_some heq3
                            exact ⟨⟨not_lt.mp hno.1, not_lt.mp hno.2⟩, hday,
                              ⟨task, List.mem_of_find?_eq_some heq2,
                                of_decide_eq_true hp⟩,
                              performer, List.mem_of_find?_eq_some heq3,
                              of_decide_eq_true hq⟩
                          · exact validate_matrix_ok_sound st rest _ ns2 heq4 x hx2

lemma normalize_optional_month_ok_day {od : Option PDate} {om : Option Nat}
    (h : normalize_optional_month od = .ok om) :
    ∀ d, od = some d → d.day = 1 := by
  intro d hd
  subst hd
  by_cases hday : d.day = 1
  · exact hday
  · simp [normalize_optional_month, normalize_month_start, hday] at h

lemma validate_rate_ok_sound :
    ∀ (st : St) (entries : List RateEntryInput) (seen : List (Nat × Option Nat × Nat))
      (ns : List NormalizedRateEntry),
      validate_rate_entries st entries seen = .ok ns →
      ∀ x ∈ entries, 0 ≤ x.rate_value ∧
        x.effective_from_month.day = 1 ∧
        (∀ d, x.effective_to_month = some d → d.day = 1) ∧
        ∃ p ∈ st.performers, p.id = x.performer_id
  | _, [], _, _ => by intro _ x hx; cases hx
  | st, p :: rest, seen, ns => by
      intro h x hx
      unfold validate_rate_entries at h
      split at h
      · exact Except.noConfusion h
      next from_m heq =>
        split at h
        next e heq1 => exact Except.noConfusion h
        next to_m heq1 =>
          split at h
          · exact Except.noConfusion h
          next hord =>
            split at h
            · exact Except.noConfusion h
            next hval =>
              split at h
              · exact Except.noConfusion h
              next performer heq2 =>
                split at h
                · exact Except.noConfusion h
                next hproj =>
                  split at h
                  · exact Except.noConfusion h
                  next hdup =>
                    split at h
                    next e heq3 => exact Except.noConfusion h
                    next ns2 heq3 =>
                      rcases List.mem_cons.mp hx with rfl | hx2
                      · have hday : x.effective_from_month.day = 1 := by
                          by_cases hd : x.effective_from_month.day = 1
                          · exact hd
                          · simp [normalize_month_start, hd] at heq
                        have hp := List.find?_some heq2
                        exact ⟨not_lt.mp hval, hday,
                          normalize_optional_month_ok_day heq1,
                          performer, List.mem_of_find?_eq_some heq2,
                          of_decide_eq_true hp⟩
                      · exact validate_rate_ok_sound st rest _ ns2 heq3 x hx2

/-- C7: bulk upserts of matrix effort entries and of rates are all-or-
nothing: when the call errors the returned state is exactly the pre-call
state (every pre-existing effort entry, rate, and snapshot untouched);
when it succeeds, the whole validated batch is applied and exactly one
snapshot refresh runs at the end; and a batch containing an invalid entry
(negative person-days for matrix entries, negative value for rates) always
errors. -/
theorem bulk_upserts_are_atomic (st : St) (entries : List MatrixEntryInput)
    (rate_entries : List RateEntryInput) :
    (∀ e, (bulk_upsert_matrix_entries st entries).1 = .error e →
      (bulk_upsert_matrix_entries st entries).2 = st) ∧
    (∀ res, (bulk_upsert_matrix_entries st entries).1 = .ok res →
      ∃ ns, validate_matrix_entries st entries [] = .ok ns ∧
        (bulk_upsert_matrix_entries st entries).2 =
          (refresh_project_snapshots
            { st with efforts := ns.foldl upsert_effort_entry st.efforts }).2) ∧
    ((∃ x ∈ entries, x.planned_person_days < 0 ∨ x.actual_person_days < 0) →
      ∃ e, (bulk_upsert_matrix_entries st entries).1 = .error e) ∧
    (∀ e, (bulk_upsert_rates st rate_entries).1 = .error e →
      (bulk_upsert_rates st rate_entries).2 = st) ∧
    (∀ res, (bulk_upsert_rates st rate_entries).1 = .ok res →
      ∃ ns st1, validate_rate_entries st rate_entries [] = .ok ns ∧
        apply_rate_entries st ns = .ok st1 ∧
        (bulk_upsert_rates st rate_entries).2 = (refresh_project_snapshots st1).2) ∧
    ((∃ x ∈ rate_entries, x.rate_value < 0) →
      ∃ e, (bulk_upsert_rates st rate_entries).1 = .error e) := by
  refine ⟨?_, ?_, ?_, ?_, ?_, ?_⟩
  · intro e he
    cases hv : validate_matrix_entries st entries [] with
    | error e2 => simp [bulk_upsert_matrix_entries, hv]
    | ok ns => simp [bulk_upsert_matrix_entries, hv] at he
  · intro res hres
    cases hv : validate_matrix_entries st entries [] with
    | error e2 => simp [bulk_upsert_matrix_entries, hv] at hres
    | ok ns =>
        exact ⟨ns, rfl, by simp [bulk_upsert_matrix_entries, hv]⟩
  · rintro ⟨x, hx, hneg⟩
    cases hv : validate_matrix_entries st entries [] with
    | error e2 => exact ⟨e2, by simp [bulk_upsert_matrix_entries, hv]⟩
    | ok ns =>
        have := validate_matrix_ok_sound st entries [] ns hv x hx
        rcases hneg with hneg | hneg
        · exact absurd hneg (not_lt.mpr this.1.1)
        · exact absurd hneg (not_lt.mpr this.1.2)
  · intro e he
    cases hv : validate_rate_entries st rate_entries [] with
    | error e2 => simp [bulk_upsert_rates, hv]
    | ok ns =>
        cases ha : apply_rate_entries st ns with
        | error e3 => simp [bulk_upsert_rates, hv, ha]
        | ok st1 => simp [bulk_upsert_rates, hv, ha] at he
  · intro res hres
    cases hv : validate_rate_entries st rate_entries [] with
    | error e2 => simp [bulk_upsert_rates, hv] at hres
    | ok ns =>
        cases ha : apply_rate_entries st ns with
        | error e3 => simp [bulk_upsert_rates, hv, ha] at hres
        | ok st1 =>
            exact ⟨ns, st1, rfl, ha, by simp [bulk_upsert_rates, hv, ha]⟩
  · rintro ⟨x, hx, hneg⟩
    cases hv : validate_rate_entries st rate_entries [] with
    | error e2 => exact ⟨e2, by simp [bulk_upsert_rates, hv]⟩
    | ok ns =>
        have := validate_rate_ok_sound st rate_entries [] ns hv x hx
        exact absurd hneg (not_lt.mpr this.1)

/-- Model of `project_finance_summary` (`finance_reporting_service.py` lines 408-436):
normalize the requested window (defaulting to the project range), reject a
window outside the project range or with `to < from`, then build the
rollups for exactly the requested window. -/
def project_finance_summary (st : St) (from_month to_month : Option PDate) :
    Except Err (Nat × Nat × List RollupRow) :=
  match normalize_month_start (from_month.getD ⟨st.project.start_month, 1⟩) with
  | none => .error Err.month_not_first_day
  | some summary_from =>
    match normalize_month_start (to_month.getD ⟨st.project.end_month, 1⟩) with
    | none => .error Err.month_not_first_day
    | some summary_to =>
      if summary_from < st.project.start_month ∨ st.project.end_month < summary_to then
        .error Err.summary_range_outside_project
      else if summary_to < summary_from then
        .error Err.summary_to_before_from
      else
        .ok (summary_from, summary_to,
          project_monthly_rollups st summary_from summary_to)

/-- Model of `_report_month_range` (`finance_reporting_service.py` lines 677-690),
shared by the four reports and `project_dashboard`. -/
def report_month_range (st : St) (from_month to_month : Option PDate) :
    Except Err (Nat × Nat × List Nat) :=
  match normalize_month_start (from_month.getD ⟨st.project.start_month, 1⟩) with
  | none => .error Err.month_not_first_day
  | some report_from =>
    match normalize_month_start (to_month.getD ⟨st.project.end_month, 1⟩) with
    | none => .error Err.month_not_first_day
    | some report_to =>
      if report_from < st.project.start_month ∨ st.project.end_month < report_to then
        .error Err.report_range_outside_project
      else if report_to < report_from then
        .error Err.report_to_before_from
      else .ok (report_from, report_to, month_sequence report_from report_to)

/-- Month-window validation and month enumeration prefix of `read_matrix`
(`planning_service.py` lines 817-832); the remaining payload assembly is
response shaping over exactly these months. -/
def read_matrix_months (st : St) (from_month to_month : Option PDate) :
    Except Err (List Nat) :=
  match normalize_month_start (from_month.getD ⟨st.project.start_month, 1⟩) with
  | none => .error Err.month_not_first_day
  | some matrix_from =>
    match normalize_month_start (to_month.getD ⟨st.project.end_month, 1⟩) with
    | none => .error Err.month_not_first_day
    | some matrix_to =>
      if matrix_from < st.project.start_month ∨ st.project.end_month < matrix_to then
        .error Err.matrix_range_outside_project
      else if matrix_to < matrix_from then
        .error Err.matrix_to_before_from
      else .ok (month_sequence matrix_from matrix_to)

/-- C8: the finance summary, the shared report/dashboard range helper, and
the matrix read all reject a requested window whose from-month precedes the
project start, whose to-month exceeds the project end, or whose to-month
precedes its from-month — returning a validation error instead of any
rollup output — and on success they use exactly the requested window,
never a clamped one. -/
theorem month_window_rejected_never_clamped (st : St) (fd td : PDate)
    (hfd : fd.day = 1) (htd : td.day = 1) :
    ((fd.month < st.project.start_month ∨ st.project.end_month < td.month ∨
        td.month < fd.month) →
      (∃ e, project_finance_summary st (some fd) (some td) = .error e) ∧
      (∃ e, report_month_range st (some fd) (some td) = .error e) ∧
      (∃ e, read_matrix_months st (some fd) (some td) = .error e)) ∧
    (∀ f t rows, project_finance_summary st (some fd) (some td) = .ok (f, t, rows) →
      f = fd.month ∧ t = td.month ∧
      st.project.start_month ≤ f ∧ t ≤ st.project.end_month ∧ f ≤ t ∧
      rows = project_monthly_rollups st fd.month td.month) ∧
    (∀ f t ms, report_month_range st (some fd) (some td) = .ok (f, t, ms) →
      f = fd.month ∧ t = td.month ∧
      st.project.start_month ≤ f ∧ t ≤ st.project.end_month ∧ f ≤ t ∧
      ms = month_sequence fd.month td.month) ∧
    (∀ ms, read_matrix_months st (some fd) (some td) = .ok ms →
      ms = month_sequence fd.month td.month) := by
  have hfm : normalize_month_start fd = some fd.month := by
    simp [normalize_month_start, hfd]
  have htm : normalize_month_start td = some td.month := by
    simp [normalize_month_start, htd]
  refine ⟨?_, ?_, ?_, ?_⟩
  · intro hbad
    by_cases h1 : fd.month < st.project.start_month ∨ st.project.end_month < td.month
    · refine ⟨⟨Err.summary_range_outside_project, ?_⟩,
        ⟨Err.report_range_outside_project, ?_⟩,
        ⟨Err.matrix_range_outside_project, ?_⟩⟩
      · simp only [project_finance_summary, Option.getD_some, hfm, htm]
        rw [if_pos h1]
      · simp only [report_month_range, Option.getD_some, hfm, htm]
        rw [if_pos h1]
      · simp only [read_matrix_months, Option.getD_some, hfm, htm]
        rw [if_pos h1]
    · have h2 : td.month < fd.month := by
        rcases hbad with a | a | a
        · exact absurd (Or.inl a) h1
        · exact absurd (Or.inr a) h1
        · exact a
      refine ⟨⟨Err.summary_to_before_from, ?_⟩,
        ⟨Err.report_to_before_from, ?_⟩,
        ⟨Err.matrix_to_before_from, ?_⟩⟩
      · simp only [project_finance_summary, Option.getD_some, hfm, htm]
        rw [if_neg h1, if_pos h2]
      · simp only [report_month_range, Option.getD_some, hfm, htm]
        rw [if_neg h1, if_pos h2]
      · simp only [read_matrix_months, Option.getD_some, hfm, htm]
        rw [if_neg h1, if_pos h2]
  · intro f t rows hok
    simp only [project_finance_summary, Option.getD_some, hfm, htm] at hok
    split at hok
    next h1 => exact Except.noConfusion hok
    next h1 =>
      split at hok
      next h2 => exact Except.noConfusion hok
      next h2 =>
        simp only [Except.ok.injEq, Prod.mk.injEq] at hok
        obtain ⟨rfl, rfl, hr⟩ := hok
        push_neg at h1
        exact ⟨rfl, rfl, h1.1, h1.2, not_lt.mp h2, hr.symm⟩
  · intro f t ms hok
    simp only [report_month_range, Option.getD_some, hfm, htm] at hok
    split at hok
    next h1 => exact Except.noConfusion hok
    next h1 =>
      split at hok
      next h2 => exact Except.noConfusion hok
      next h2 =>
        simp only [Except.ok.injEq, Prod.mk.injEq] at hok
        obtain ⟨rfl, rfl, hr⟩ := hok
        push_neg at h1
        exact ⟨rfl, rfl, h1.1, h1.2, not_lt.mp h2, hr.symm⟩
  · intro ms hok
    simp only [read_matrix_months, Option.getD_some, hfm, htm] at hok
    split at hok
    next h1 => exact Except.noConfusion hok
    next h1 =>
      split at hok
      next h2 => exact Except.noConfusion hok
      next h2 =>
        simp only [Except.ok.injEq] at hok
        exact hok.symm

lemma validate_matrix_error_no_ids :
    ∀ (st : St) (entries : List MatrixEntryInput) (seen : List (Nat × Nat × Nat))
      (e : Err), validate_matrix_entries st entries seen = .error e →
      e.offender_ids = []
  | _, [], _, _ => by intro h; exact Except.noConfusion h
  | st, p :: rest, seen, e => by
      intro h
      unfold validate_matrix_entries at h
      split at h
      · injection h with h2; subst h2; rfl
      next month heq =>
        split at h
        next => injection h with h2; subst h2; rfl
        next hneg =>
          split at h
          next => injection h with h2; subst h2; rfl
          next hrange =>
            split at h
            · injection h with h2; subst h2; rfl
            next task heq2 =>
              split at h
              next => injection h with h2; subst h2; rfl
              next hact =>
                split at h
                · injection h with h2; subst h2; rfl
                next performer heq3 =>
                  split at h
                  next => injection h with h2; subst h2; rfl
                  next hpact =>
                    split at h
                    next => injection h with h2; subst h2; rfl
                    next hassign =>
                      split at h
                      next => injection h with h2; subst h2; rfl
                      next hdup =>
                        split at h
                        next e2 heq4 =>
                          injection h with h2
                          subst h2
                          exact validate_matrix_error_no_ids st rest _ _ heq4
                        next ns2 heq4 => exact Except.noConfusion h

lemma normalize_optional_month_error_no_ids {od : Option PDate} {e : Err}
    (h : normalize_optional_month od = .error e) : e.offender_ids = [] := by
  unfold normalize_optional_month at h
  split at h
  · exact Except.noConfusion h
  next d =>
    split at h
    · injection h with h2; subst h2; rfl
    · exact Except.noConfusion h

lemma validate_rate_error_no_ids :
    ∀ (st : St) (entries : List RateEntryInput) (seen : List (Nat × Option Nat × Nat))
      (e : Err), validate_rate_entries st entries seen = .error e →
      e.offender_ids = []
  | _, [], _, _ => by intro h; exact Except.noConfusion h
  | st, p :: rest, seen, e => by
      intro h
      unfold validate_rate_entries at h
      split at h
      · injection h with h2; subst h2; rfl
      next from_m heq =>
        split at h
        next e2 heq1 =>
          injection h with h2
          subst h2
          exact normalize_optional_month_error_no_ids heq1
        next to_m heq1 =>
          split at h
          next => injection h with h2; subst h2; rfl
          next hord =>
            split at h
            next => injection h with h2; subst h2; rfl
            next hval =>
              split at h
              · injection h with h2; subst h2; rfl
              next performer heq2 =>
                split at h
                next => injection h with h2; subst h2; rfl
                next hproj =>
                  split at h
                  next => injection h with h2; subst h2; rfl
                  next hdup =>
                    split at h
                    next e2 heq3 =>
                      injection h with h2
                      subst h2
                      exact validate_rate_error_no_ids st rest _ _ heq3
                    next ns2 heq3 => exact Except.noConfusion h

/-- Model of `_resolve_filters` (`finance_reporting_service.py` lines 692-728):
truthy filter id sets are validated against the tasks of the project and
the performers of the business unit; the raised message carries the full sorted
list of unknown identifiers; empty or missing sets disable the filter. -/
def resolve_filters (st : St) (performer_ids task_ids : Option (List Nat)) :
    Except Err (Option (List Nat) × Option (List Nat)) :=
  let task_filter_set : Option (List Nat) := match task_ids with
    | none => none
    | some [] => none
    | some l => some l.dedup
  let performer_filter_set : Option (List Nat) := match performer_ids with
    | none => none
    | some [] => none
    | some l => some l.dedup
  let unknown_tasks : List Nat := match task_filter_set with
    | none => []
    | some ts => List.insertionSort (· ≤ ·)
        (ts.filter (fun tid => !st.tasks.any (fun t => decide (t.id = tid))))
  if unknown_tasks ≠ [] then .error (Err.unknown_task_ids unknown_tasks)
  else
    let unknown_performers : List Nat := match performer_filter_set with
      | none => []
      | some ps => List.insertionSort (· ≤ ·)
          (ps.filter (fun pid => !st.performers.any (fun p => decide (p.id = pid))))
    if unknown_performers ≠ [] then .error (Err.unknown_performer_ids unknown_performers)
    else .ok (performer_filter_set, task_filter_set)

/-- Shared month/amount validation of `create_financial_request`,
`create_invoice` and `create_revenue` (`finance_reporting_service.py`
lines 575-604, 610-640, 646-674): normalize `month_start`, require a
non-negative amount, and require the month within the project range. -/
def validate_register_row (st : St) (month_start : PDate) (amount : ℚ) :
    Except Err Nat :=
  match normalize_month_start month_start with
  | none => .error Err.month_not_first_day
  | some m =>
    if amount < 0 then .error Err.negative_amount
    else if m < st.project.start_month ∨ st.project.end_month < m then
      .error Err.register_month_outside_range
    else .ok m

/-- Month validation of `create_project` / `update_project`
(`planning_service.py` lines 333-339 and 379-389): both bounds normalized
to month starts, `end_month ≥ start_month`. -/
def validate_project_months (start_d end_d : PDate) : Except Err (Nat × Nat) :=
  match normalize_month_start start_d with
  | none => .error Err.month_not_first_day
  | some s =>
    match normalize_month_start end_d with
    | none => .error Err.month_not_first_day
    | some e =>
      if e < s then .error Err.project_end_before_start
      else .ok (s, e)

/-- Month validation of `create_stage` / `update_stage`
(`planning_service.py` lines 470-481 and 509-525): bounds normalized,
ordered, and within the project month range. -/
def validate_stage_months (st : St) (start_d end_d : PDate) :
    Except Err (Nat × Nat) :=
  match normalize_month_start start_d with
  | none => .error Err.month_not_first_day
  | some s =>
    match normalize_month_start end_d with
    | none => .error Err.month_not_first_day
    | some e =>
      if e < s then .error Err.stage_end_before_start
      else if s < st.project.start_month ∨ st.project.end_month < e then
        .error Err.stage_outside_project
      else .ok (s, e)

/-- C9 (amended): the report-filter validator `_resolve_filters` rejects
unknown task or performer identifiers with the full sorted list of every
offending identifier, while the bulk upsert operations (matrix entries
with an unknown task or an unassigned performer, rates with a performer
outside the business unit) merely reject the batch with a fixed message
that names no identifiers. -/
theorem unknown_reference_reporting (st : St) :
    (∀ (performer_ids : Option (List Nat)) (l : List Nat) (tid : Nat),
      tid ∈ l → (∀ t ∈ st.tasks, t.id ≠ tid) →
      ∃ us, resolve_filters st performer_ids (some l)
          = .error (Err.unknown_task_ids us) ∧
        tid ∈ us ∧ (∀ u ∈ us, u ∈ l ∧ ∀ t ∈ st.tasks, t.id ≠ u) ∧
        Err.offender_ids (Err.unknown_task_ids us) = us) ∧
    (∀ (l : List Nat) (pid : Nat),
      pid ∈ l → (∀ p ∈ st.performers, p.id ≠ pid) →
      ∃ us, resolve_filters st (some l) none
          = .error (Err.unknown_performer_ids us) ∧
        pid ∈ us ∧ (∀ u ∈ us, u ∈ l ∧ ∀ p ∈ st.performers, p.id ≠ u) ∧
        Err.offender_ids (Err.unknown_performer_ids us) = us) ∧
    (∀ (entries : List MatrixEntryInput) (x : MatrixEntryInput),
      x ∈ entries → (∀ t ∈ st.tasks, t.id ≠ x.task_id) →
      ∃ e, (bulk_upsert_matrix_entries st entries).1 = .error e ∧
        e.offender_ids = []) ∧
    (∀ (entries : List MatrixEntryInput) (x : MatrixEntryInput),
      x ∈ entries →
      (∀ q ∈ list_performers_for_project st, q.id ≠ x.performer_id) →
      ∃ e, (bulk_upsert_matrix_entries st entries).1 = .error e ∧
        e.offender_ids = []) ∧
    (∀ (rentries : List RateEntryInput) (x : RateEntryInput),
      x ∈ rentries → (∀ q ∈ st.performers, q.id ≠ x.performer_id) →
      ∃ e, (bulk_upsert_rates st rentries).1 = .error e ∧
        e.offender_ids = []) := by
  refine ⟨?_, ?_, ?_, ?_, ?_⟩
  · intro performer_ids l tid hmem hunk
    obtain ⟨a, as, rfl⟩ : ∃ a as, l = a :: as := by
      cases l with
      | nil => cases hmem
      | cons a as => exact ⟨a, as, rfl⟩
    have hpred : (!st.tasks.any (fun t => decide (t.id = tid))) = true := by
      simp only [Bool.not_eq_true', List.any_eq_false, decide_eq_true_eq]
      exact fun t ht => hunk t ht
    have htidU : tid ∈ List.insertionSort (· ≤ ·)
        (((a :: as).dedup).filter
          (fun tid2 => !st.tasks.any (fun t => decide (t.id = tid2)))) := by
      rw [List.mem_insertionSort]
      exact List.mem_filter.mpr ⟨List.mem_dedup.mpr hmem, hpred⟩
    refine ⟨_, ?_, htidU, ?_, rfl⟩
    · simp only [resolve_filters]
      rw [if_pos (List.ne_nil_of_mem htidU)]
    · intro u hu
      rw [List.mem_insertionSort] at hu
      have hu2 := List.mem_filter.mp hu
      refine ⟨List.mem_dedup.mp hu2.1, ?_⟩
      intro t ht
      have := hu2.2
      simp only [Bool.not_eq_true', List.any_eq_false, decide_eq_true_eq] at this
      exact this t ht
  · intro l pid hmem hunk
    obtain ⟨a, as, rfl⟩ : ∃ a as, l = a :: as := by
      cases l with
      | nil => cases hmem
      | cons a as => exact ⟨a, as, rfl⟩
    have hpred : (!st.performers.any (fun p => decide (p.id = pid))) = true := by
      simp only [Bool.not_eq_true', List.any_eq_false, decide_eq_true_eq]
      exact fun p hp => hunk p hp
    have hpidU : pid ∈ List.insertionSort (· ≤ ·)
        (((a :: as).dedup).filter
          (fun pid2 => !st.performers.any (fun p => decide (p.id = pid2)))) := by
      rw [List.mem_insertionSort]
      exact List.mem_filter.mpr ⟨List.mem_dedup.mpr hmem, hpred⟩
    refine ⟨_, ?_, hpidU, ?_, rfl⟩
    · simp only [resolve_filters]
      rw [if_neg (by simp), if_pos (List.ne_nil_of_mem hpidU)]
    · intro u hu
      rw [List.mem_insertionSort] at hu
      have hu2 := List.mem_filter.mp hu
      refine ⟨List.mem_dedup.mp hu2.1, ?_⟩
      intro p hp
      have := hu2.2
      simp only [Bool.not_eq_true', List.any_eq_false, decide_eq_true_eq] at this
      exact this p hp
  · intro entries x hx hunk
    cases hv : validate_matrix_entries st entries [] with
    | error e =>
        exact ⟨e, by simp [bulk_upsert_matrix_entries, hv],
          validate_matrix_error_no_ids st entries [] e hv⟩
    | ok ns =>
        obtain ⟨t, ht, htid⟩ :=
          (validate_matrix_ok_sound st entries [] ns hv x hx).2.2.1
        exact absurd htid (hunk t ht)
  · intro entries x hx hunk
    cases hv : validate_matrix_entries st entries [] with
    | error e =>
        exact ⟨e, by simp [bulk_upsert_matrix_entries, hv],
          validate_matrix_error_no_ids st entries [] e hv⟩
    | ok ns =>
        obtain ⟨q, hq, hqid⟩ :=
          (validate_matrix_ok_sound st entries [] ns hv x hx).2.2.2
        exact absurd hqid (hunk q hq)
  · intro rentries x hx hunk
    cases hv : validate_rate_entries st rentries [] with
    | error e =>
        exact ⟨e, by simp [bulk_upsert_rates, hv],
          validate_rate_error_no_ids st rentries [] e hv⟩
    | ok ns =>
        obtain ⟨q, hq, hqid⟩ :=
          (validate_rate_ok_sound st rentries [] ns hv x hx).2.2.2
        exact absurd hqid (hunk q hq)

/-- C10: every public operation taking a month-valued input rejects a date
whose day-of-month is not 1 with a validation error, and never silently
truncates: `normalize_month_start` succeeds exactly on first-of-month
dates and returns the month unchanged; the summary, report and matrix
windows, register creation, project and stage month bounds, and the months
inside bulk matrix and rate batches are all rejected when a non-first-day
date appears. -/
theorem month_inputs_must_be_first_of_month :
    (∀ (d : PDate) (m : Nat),
      normalize_month_start d = some m ↔ (d.day = 1 ∧ m = d.month)) ∧
    (∀ (st : St) (fd td : PDate), fd.day ≠ 1 ∨ td.day ≠ 1 →
      project_finance_summary st (some fd) (some td)
          = .error Err.month_not_first_day ∧
      report_month_range st (some fd) (some td) = .error Err.month_not_first_day ∧
      read_matrix_months st (some fd) (some td) = .error Err.month_not_first_day) ∧
    (∀ (st : St) (d : PDate) (amount : ℚ), d.day ≠ 1 →
      validate_register_row st d amount = .error Err.month_not_first_day) ∧
    (∀ sd ed : PDate, sd.day ≠ 1 ∨ ed.day ≠ 1 →
      validate_project_months sd ed = .error Err.month_not_first_day) ∧
    (∀ (st : St) (sd ed : PDate), sd.day ≠ 1 ∨ ed.day ≠ 1 →
      validate_stage_months st sd ed = .error Err.month_not_first_day) ∧
    (∀ (st : St) (entries : List MatrixEntryInput) (x : MatrixEntryInput),
      x ∈ entries → x.month_start.day ≠ 1 →
      ∃ e, (bulk_upsert_matrix_entries st entries).1 = .error e) ∧
    (∀ (st : St) (entries : List RateEntryInput) (x : RateEntryInput),
      x ∈ entries →
      (x.effective_from_month.day ≠ 1 ∨
        ∃ d, x.effective_to_month = some d ∧ d.day ≠ 1) →
      ∃ e, (bulk_upsert_rates st entries).1 = .error e) := by
  refine ⟨?_, ?_, ?_, ?_, ?_, ?_, ?_⟩
  · intro d m
    constructor
    · intro h
      by_cases hd : d.day = 1
      · refine ⟨hd, ?_⟩
        simp only [normalize_month_start, if_pos hd, Option.some.injEq] at h
        exact h.symm
      · simp [normalize_month_start, hd] at h
    · rintro ⟨hd, rfl⟩
      simp [normalize_month_start, hd]
  · intro st fd td hday
    by_cases hfd : fd.day = 1
    · have htd : td.day ≠ 1 := by
        rcases hday with h | h
        · exact absurd hfd h
        · exact h
      refine ⟨?_, ?_, ?_⟩ <;>
        simp [project_finance_summary, report_month_range, read_matrix_months,
          normalize_month_start, hfd, htd]
    · refine ⟨?_, ?_, ?_⟩ <;>
        simp [project_finance_summary, report_month_range, read_matrix_months,
          normalize_month_start, hfd]
  · intro st d amount hd
    simp [validate_register_row, normalize_month_start, hd]
  · intro sd ed hday
    by_cases hsd : sd.day = 1
    · have hed : ed.day ≠ 1 := by
        rcases hday with h | h
        · exact absurd hsd h
        · exact h
      simp [validate_project_months, normalize_month_start, hsd, hed]
    · simp [validate_project_months, normalize_month_start, hsd]
  · intro st sd ed hday
    by_cases hsd : sd.day = 1
    · have hed : ed.day ≠ 1 := by
        rcases hday with h | h
        · exact absurd hsd h
        · exact h
      simp [validate_stage_months, normalize_month_start, hsd, hed]
    · simp [validate_stage_months, normalize_month_start, hsd]
  · intro st entries x hx hd
    cases hv : validate_matrix_entries st entries [] with
    | error e => exact ⟨e, by simp [bulk_upsert_matrix_entries, hv]⟩
    | ok ns =>
        exact absurd ((validate_matrix_ok_sound st entries [] ns hv x hx).2.1) hd
  · intro st entries x hx hd
    cases hv : validate_rate_entries st entries [] with
    | error e => exact ⟨e, by simp [bulk_upsert_rates, hv]⟩
    | ok ns =>
        have hs := validate_rate_ok_sound st entries [] ns hv x hx
        rcases hd with hd | ⟨d, hsome, hd⟩
        · exact absurd hs.2.1 hd
        · exact absurd (hs.2.2.1 d hsome) hd

/-- A small concrete database state: one project over months `[0, 2]`, one
active task, one active assigned performer with a business-unit default
day rate of 100, and one effort entry in month 0. -/
def exSt : St :=
  { project := { id := 1, start_month := 0, end_month := 2 }
    tasks := [{ id := 10, active := true }]
    performers := [{ id := 20, active := true }]
    assignments := [(10, 20)]
    efforts := [{ task_id := 10, performer_id := 20, month_start := 0,
                  planned_person_days := 2, actual_person_days := 1 }]
    rates := [{ id := 30, performer_id := 20, project_id := none,
                rate_unit := RateUnit.day, rate_value := 100,
                effective_from_month := 0, effective_to_month := none }]
    invoices := []
    revenues := []
    snapshots := []
    next_rate_id := 31
    working_days := 20 }

/-- The cost row computed for the single effort entry of `exSt`. -/
def exRow : CostEntryRow :=
  { task_id := 10, performer_id := 20, month_start := 0
    planned_person_days := 2, actual_person_days := 1
    planned_cost := 200, actual_cost := 100
    rate_value_per_day := 100, rate_unit := some RateUnit.day }

/-- Witness for C3 at the concrete state. -/
theorem cost_entry_rows_rounded_per_day_witness :
    exRow ∈ project_cost_entry_rows exSt 0 2 none none ∧
    exRow.planned_cost = q2 (exRow.planned_person_days * exRow.rate_value_per_day) := by
  have hlist : project_cost_entry_rows exSt 0 2 none none = [exRow] := by
    norm_num [project_cost_entry_rows, list_effort_entries_filtered,
      list_rates_for_business_unit, exSt, exRow, resolve_effective_rate, pick_top,
      List.insertionSort, rate_covers_month, passes_filter, rate_value_per_day,
      q2, roundHalfEven, Int.floor_intCast]
  have hmem : exRow ∈ project_cost_entry_rows exSt 0 2 none none := by
    rw [hlist]
    exact List.mem_singleton.mpr rfl
  exact ⟨hmem,
    ((cost_entry_rows_rounded_per_day exSt 0 2 none none).2 exRow hmem).1⟩

/-- Witness for C4 at the concrete state. -/
theorem rollup_one_row_per_calendar_month_witness :
    (0 : Nat) ≤ 2 ∧
    (project_monthly_rollups exSt 0 2).map RollupRow.month_start
        = month_sequence 0 2 :=
  ⟨by decide, (rollup_one_row_per_calendar_month exSt 0 2 (by decide)).1⟩

/-- Witness for C6 at the concrete state. -/
theorem refresh_snapshot_table_exact_range_witness :
    (exSt.snapshots.map ProjectMonthlySnapshot.month_start).Nodup ∧
    ((refresh_project_snapshots exSt).2.snapshots.map
        ProjectMonthlySnapshot.month_start).Nodup :=
  ⟨by decide, (refresh_snapshot_table_exact_range exSt (by decide)).1⟩

/-- Witness for C7: a batch holding a negative-person-days entry errors. -/
theorem bulk_upserts_are_atomic_witness :
    ∃ e, (bulk_upsert_matrix_entries exSt
        [⟨10, 20, ⟨0, 1⟩, -1, 0⟩]).1 = .error e :=
  (bulk_upserts_are_atomic exSt [⟨10, 20, ⟨0, 1⟩, -1, 0⟩] []).2.2.1
    ⟨⟨10, 20, ⟨0, 1⟩, -1, 0⟩, List.mem_singleton.mpr rfl, Or.inl (by norm_num)⟩

/-- Witness for C8: a window ending after the project range is rejected. -/
theorem month_window_rejected_never_clamped_witness :
    ∃ e, project_finance_summary exSt (some ⟨5, 1⟩) (some ⟨6, 1⟩) = .error e :=
  ((month_window_rejected_never_clamped exSt ⟨5, 1⟩ ⟨6, 1⟩ rfl rfl).1
    (Or.inr (Or.inl (by decide)))).1

/-- Witness for the amended C9: both unknown filter ids are reported. -/
theorem unknown_reference_reporting_witness :
    ∃ us, resolve_filters exSt none (some [5, 7])
        = .error (Err.unknown_task_ids us) ∧ 5 ∈ us ∧ 7 ∈ us := by
  obtain ⟨us, h1, h2, _⟩ :=
    (unknown_reference_reporting exSt).1 none [5, 7] 5 (by decide) (by decide)
  obtain ⟨us2, g1, g2, _⟩ :=
    (unknown_reference_reporting exSt).1 none [5, 7] 7 (by decide) (by decide)
  rw [h1] at g1
  injection g1 with g1
  injection g1 with g1
  exact ⟨us, h1, h2, by rw [g1]; exact g2⟩

/-- C9 counterexample: a bulk matrix batch naming two distinct unknown task
identifiers (5 and 7, neither of which is a task of the project) is
rejected with the fixed error `task_not_in_project`, raised at the first
offending entry and carrying no identifier list at all — the rejection
does not report the full list of offending identifiers. -/
theorem bulk_upsert_unknown_refs_counterexample :
    (bulk_upsert_matrix_entries exSt
        [⟨5, 20, ⟨0, 1⟩, 1, 1⟩, ⟨7, 20, ⟨0, 1⟩, 1, 1⟩]).1
      = .error Err.task_not_in_project ∧
    (∀ t ∈ exSt.tasks, t.id ≠ 5 ∧ t.id ≠ 7) ∧
    Err.offender_ids Err.task_not_in_project = [] :=
  ⟨rfl, by decide, rfl⟩

/-- Witness for C10: a register row dated mid-month is rejected. -/
theorem month_inputs_must_be_first_of_month_witness :
    validate_register_row exSt ⟨0, 15⟩ 1 = .error Err.month_not_first_day :=
  month_inputs_must_be_first_of_month.2.2.1 exSt ⟨0, 15⟩ 1 (by decide)
